import Mathlib

/-!
Shallow embedding of the xelis bulletproofs range-proof module
(`src/range_proof/mod.rs`) over the Ristretto255 scalar field.

Scalars are modelled as `ZMod ristrettoOrder`; Ristretto points are modelled
as an arbitrary module over the scalar ring (the Ristretto255 group is a
cyclic group of order `ristrettoOrder`, hence such a module).  The merlin
transcript is external to the repository and is modelled as an abstract
state type with labelled append/challenge operations.
-/

/-- Order of the Ristretto255 (prime-order) group; the scalar field modulus. -/
def ristrettoOrder : ℕ := 2 ^ 252 + 27742317777372353535851937790883648493

instance : NeZero ristrettoOrder := ⟨by decide⟩

/-- Scalars of the Ristretto255 scalar field (`curve25519_dalek::scalar::Scalar`). -/
abbrev Scalar := ZMod ristrettoOrder

/-- Modelled from the spec: `util::sum_of_powers` (util.rs is not under src/).
The geometric sum `Σ_{i<k} x^i` used by `delta` (§4.4 of the spec). -/
def sum_of_powers (x : Scalar) (k : ℕ) : Scalar := ∑ i ∈ Finset.range k, x ^ i

/-- `delta(n, m, y, z)` from `src/range_proof/mod.rs` lines 761-767:
`(z - z*z) * sum_y - z*z*z * sum_2 * sum_z`. -/
def delta (n m : ℕ) (y z : Scalar) : Scalar :=
  let sum_y := sum_of_powers y (n * m)
  let sum_2 := sum_of_powers 2 n
  let sum_z := sum_of_powers z m
  (z - z * z) * sum_y - z * z * z * sum_2 * sum_z

/-- One pass of the naive power-by-power loop of `test_delta`
(`src/range_proof/mod.rs` lines 790-798): state is
`(power_g, exp_y, exp_2)`, updated as in the source. -/
def deltaNaiveLoop (y z z2 z3 : Scalar) : ℕ → Scalar × Scalar × Scalar
  | 0 => (0, 1, 1)
  | k + 1 =>
    let st := deltaNaiveLoop y z z2 z3 k
    (st.1 + (z - z2) * st.2.1 - z3 * st.2.2, st.2.1 * y, st.2.2 + st.2.2)

/-- The naive power-by-power accumulation of `test_delta`
(`src/range_proof/mod.rs` lines 787-798). -/
def deltaNaive (n : ℕ) (y z : Scalar) : Scalar :=
  (deltaNaiveLoop y z (z * z) (z * z * z) n).1

lemma deltaNaiveLoop_spec (y z : Scalar) (n : ℕ) :
    deltaNaiveLoop y z (z * z) (z * z * z) n =
      (∑ i ∈ Finset.range n, ((z - z * z) * y ^ i - z * z * z * 2 ^ i),
        y ^ n, (2 : Scalar) ^ n) := by
  induction n with
  | zero => simp [deltaNaiveLoop]
  | succ k ih =>
    rw [deltaNaiveLoop, ih]
    refine Prod.ext ?_ (Prod.ext ?_ ?_)
    · simp only [Finset.sum_range_succ]
      ring
    · simp [pow_succ]
    · simp only
      ring

lemma delta_as_sum (n m : ℕ) (y z : Scalar) :
    delta n m y z =
      (z - z * z) * (∑ i ∈ Finset.range (n * m), y ^ i) -
        ∑ j ∈ Finset.range m, z ^ (j + 3) * ∑ i ∈ Finset.range n, (2 : Scalar) ^ i := by
  unfold delta sum_of_powers
  simp only
  congr 1
  rw [Finset.mul_sum]
  refine Finset.sum_congr rfl fun j _ => ?_
  ring

/-- **C5**: `delta(n, m, y, z)` equals
`(z - z²)·Σ_{i<n·m} y^i − Σ_{j<m} z^{j+3}·Σ_{i<n} 2^i` in the Ristretto255
scalar field, and for `n·m ≥ 256` in the single-party case (`m = 1`, where
the powers of two overflow the group order) `delta(n, 1, y, z)` equals the
naive power-by-power accumulation of `test_delta`. -/
theorem delta_correct_through_group_order (n m : ℕ) (y z : Scalar) :
    (delta n m y z =
      (z - z * z) * (∑ i ∈ Finset.range (n * m), y ^ i) -
        ∑ j ∈ Finset.range m, z ^ (j + 3) * ∑ i ∈ Finset.range n, (2 : Scalar) ^ i) ∧
    (256 ≤ n * 1 → delta n 1 y z = deltaNaive n y z) := by
  refine ⟨delta_as_sum n m y z, fun _ => ?_⟩
  unfold deltaNaive
  rw [deltaNaiveLoop_spec, delta_as_sum]
  simp only [mul_one, Finset.range_one, Finset.sum_singleton, pow_zero, zero_add,
    Finset.sum_sub_distrib, Finset.mul_sum]
  congr 1
  refine Finset.sum_congr rfl fun i _ => ?_
  ring

/-- Witness for `delta_correct_through_group_order` at `n = 256`, `m = 1`,
`y = 2`, `z = 3`. -/
theorem delta_correct_witness :
    256 ≤ 256 * 1 ∧ delta 256 1 2 3 = deltaNaive 256 2 3 :=
  ⟨by norm_num, (delta_correct_through_group_order 256 1 2 3).2 (by norm_num)⟩

/-! ### Byte strings and scalar encoding -/

/-- Byte strings (each entry a byte value `< 256`), little-endian where numeric. -/
abbrev Bytes := List ℕ

/-- Little-endian interpretation of a byte string as a natural number. -/
def bytesToNat : Bytes → ℕ
  | [] => 0
  | b :: rest => b + 256 * bytesToNat rest

/-- Little-endian encoding of a natural number into `k` bytes. -/
def natToBytes : ℕ → ℕ → Bytes
  | 0, _ => []
  | k + 1, v => v % 256 :: natToBytes k (v / 256)

/-- `Scalar::as_bytes`: the canonical 32-byte little-endian encoding. -/
def scalarToBytes (s : Scalar) : Bytes := natToBytes 32 s.val

/-- Modelled from the spec: `Scalar::from_canonical_bytes` of the external
curve library (§3: "canonical 32-byte little-endian encoding with
validation"); accepts exactly the encodings of values below the group
order. -/
def scalarFromCanonicalBytes (bs : Bytes) : Option Scalar :=
  if bytesToNat bs < ristrettoOrder then some ((bytesToNat bs : ℕ) : Scalar) else none

lemma natToBytes_length (k v : ℕ) : (natToBytes k v).length = k := by
  induction k generalizing v with
  | zero => rfl
  | succ k ih => simp [natToBytes, ih]

lemma bytesToNat_natToBytes (k v : ℕ) (h : v < 256 ^ k) :
    bytesToNat (natToBytes k v) = v := by
  induction k generalizing v with
  | zero => simp_all [natToBytes, bytesToNat, Nat.lt_one_iff]
  | succ k ih =>
    rw [natToBytes, bytesToNat, ih]
    · exact Nat.mod_add_div v 256
    · rw [pow_succ] at h
      exact Nat.div_lt_of_lt_mul (by omega)

lemma natToBytes_bytes_lt (k v : ℕ) : ∀ b ∈ natToBytes k v, b < 256 := by
  induction k generalizing v with
  | zero => simp [natToBytes]
  | succ k ih =>
    intro b hb
    rw [natToBytes, List.mem_cons] at hb
    rcases hb with hb1 | hb2
    · omega
    · exact ih _ _ hb2

lemma scalarToBytes_length (s : Scalar) : (scalarToBytes s).length = 32 :=
  natToBytes_length 32 s.val

lemma ristrettoOrder_lt : ristrettoOrder < 256 ^ 32 := by decide

lemma scalarFromCanonicalBytes_scalarToBytes (s : Scalar) :
    scalarFromCanonicalBytes (scalarToBytes s) = some s := by
  have hval : s.val < ristrettoOrder := ZMod.val_lt s
  rw [scalarFromCanonicalBytes, scalarToBytes,
    bytesToNat_natToBytes 32 s.val (lt_trans hval ristrettoOrder_lt)]
  rw [if_pos hval, ZMod.natCast_val, ZMod.cast_id]

/-! ### Proof data types -/

/-- Modelled from the spec: the error taxonomy of §7 (errors.rs is not under
src/); values, not type names. -/
inductive ProofError
  | InvalidBitsize
  | InvalidAggregationSize
  | InvalidGeneratorsLength
  | WrongNumBlindingFactors
  | FormatError
  | VerificationError
  | MaliciousDealer
  | MalformedProofShares (bad_shares : List ℕ)
deriving DecidableEq

/-- Modelled from the spec: `InnerProductProof` (§3, §4.2;
inner_product_proof.rs is not under src/): `L_vec`, `R_vec` of compressed
points plus the two final scalars `a`, `b`. -/
structure InnerProductProof where
  L_vec : List Bytes
  R_vec : List Bytes
  a : Scalar
  b : Scalar
deriving DecidableEq

/-- `RangeProof` (`src/range_proof/mod.rs` lines 52-69): compressed points
`A`, `S`, `T_1`, `T_2`, scalars `t_x`, `t_x_blinding`, `e_blinding`, and the
inner-product proof. -/
structure RangeProof where
  A : Bytes
  S : Bytes
  T_1 : Bytes
  T_2 : Bytes
  t_x : Scalar
  t_x_blinding : Scalar
  e_blinding : Scalar
  ipp_proof : InnerProductProof
deriving DecidableEq

/-- The interleaved `L_0 ‖ R_0 ‖ … ‖ L_{k-1} ‖ R_{k-1}` chunk section of the
inner-product proof encoding. -/
def interleaveLR (L R : List Bytes) : Bytes :=
  (L.zip R).flatMap fun lr => lr.1 ++ lr.2

/-- Modelled from the spec: `InnerProductProof::to_bytes_iter` (§6 byte
layout): interleaved pairs `L_0 ‖ R_0 ‖ … ‖ L_{k-1} ‖ R_{k-1}` followed by
the scalars `a`, `b`. -/
def InnerProductProof.toBytes (p : InnerProductProof) : Bytes :=
  interleaveLR p.L_vec p.R_vec ++ scalarToBytes p.a ++ scalarToBytes p.b

/-- `RangeProof::to_bytes` (`src/range_proof/mod.rs` lines 457-469). -/
def RangeProof.toBytes (p : RangeProof) : Bytes :=
  p.A ++ p.S ++ p.T_1 ++ p.T_2 ++ scalarToBytes p.t_x ++
    scalarToBytes p.t_x_blinding ++ scalarToBytes p.e_blinding ++
    p.ipp_proof.toBytes

/-- `util::read32(&slice[k..])` as used by `from_bytes`: the 32 bytes at
offset `k`. -/
def read32At (s : Bytes) (k : ℕ) : Bytes := (s.drop k).take 32

/-- Modelled from the spec: `InnerProductProof::from_bytes`
(inner_product_proof.rs is not under src/; §4.2: rejects with `FormatError`
when the length does not match `2·log₂(k)·32 + 64`; §6 byte layout).  The
byte string must consist of an (even) number of 32-byte compressed points
followed by two canonical scalars. -/
def InnerProductProof.fromBytes (s : Bytes) : Except ProofError InnerProductProof :=
  if s.length % 32 ≠ 0 then .error .FormatError
  else if s.length / 32 < 2 then .error .FormatError
  else if (s.length / 32 - 2) % 2 ≠ 0 then .error .FormatError
  else
    match scalarFromCanonicalBytes (read32At s (2 * ((s.length / 32 - 2) / 2) * 32)),
        scalarFromCanonicalBytes (read32At s ((2 * ((s.length / 32 - 2) / 2) + 1) * 32)) with
    | some a, some b =>
        .ok ⟨(List.range ((s.length / 32 - 2) / 2)).map fun i => read32At s (2 * i * 32),
          (List.range ((s.length / 32 - 2) / 2)).map fun i => read32At s ((2 * i + 1) * 32),
          a, b⟩
    | _, _ => .error .FormatError

/-- `RangeProof::from_bytes` (`src/range_proof/mod.rs` lines 474-508). -/
def RangeProof.fromBytes (s : Bytes) : Except ProofError RangeProof :=
  if s.length % 32 ≠ 0 then .error .FormatError
  else if s.length < 7 * 32 then .error .FormatError
  else
    match scalarFromCanonicalBytes (read32At s (4 * 32)),
        scalarFromCanonicalBytes (read32At s (5 * 32)),
        scalarFromCanonicalBytes (read32At s (6 * 32)) with
    | some t_x, some t_x_blinding, some e_blinding =>
        match InnerProductProof.fromBytes (s.drop (7 * 32)) with
        | .error e => .error e
        | .ok ipp =>
            .ok ⟨read32At s (0 * 32), read32At s (1 * 32), read32At s (2 * 32),
              read32At s (3 * 32), t_x, t_x_blinding, e_blinding, ipp⟩
    | _, _, _ => .error .FormatError

/-! ### Serialization round-trip (chunk extraction lemmas) -/

lemma read32At_of_decomp (s pre c post : Bytes) (o : ℕ) (hs : s = pre ++ (c ++ post))
    (h1 : pre.length = o) (h2 : c.length = 32) : read32At s o = c := by
  subst hs h1
  rw [read32At, List.drop_left, ← h2, List.take_left]

lemma drop_of_decomp (s pre rest : Bytes) (o : ℕ) (hs : s = pre ++ rest)
    (h1 : pre.length = o) : s.drop o = rest := by
  subst hs h1
  exact List.drop_left pre rest

lemma interleaveLR_length (L R : List Bytes)
    (hL : ∀ c ∈ L, c.length = 32) (hR : ∀ c ∈ R, c.length = 32)
    (hlen : L.length = R.length) : (interleaveLR L R).length = 64 * L.length := by
  induction L generalizing R with
  | nil => simp [interleaveLR]
  | cons l L ih =>
    cases R with
    | nil => simp at hlen
    | cons r R =>
      simp only [interleaveLR, List.zip_cons_cons, List.flatMap_cons, List.length_append,
        List.length_cons]
      rw [← interleaveLR]
      rw [ih R (fun c hc => hL c (List.mem_cons_of_mem _ hc))
        (fun c hc => hR c (List.mem_cons_of_mem _ hc)) (by simpa using hlen)]
      have h1 : l.length = 32 := hL l (List.mem_cons_self l L)
      have h2 : r.length = 32 := hR r (List.mem_cons_self r R)
      omega

lemma interleaveLR_reads (L R : List Bytes) (tail : Bytes)
    (hL : ∀ c ∈ L, c.length = 32) (hR : ∀ c ∈ R, c.length = 32)
    (hlen : L.length = R.length) :
    ∀ i, (hi : i < L.length) → (hi2 : i < R.length) →
      read32At (interleaveLR L R ++ tail) (2 * i * 32) = L.get ⟨i, hi⟩ ∧
      read32At (interleaveLR L R ++ tail) ((2 * i + 1) * 32) = R.get ⟨i, hi2⟩ := by
  induction L generalizing R tail with
  | nil => intro i hi; simp at hi
  | cons l L ih =>
    intro i hi hi2
    cases R with
    | nil => simp at hi2
    | cons r R =>
      have h1 : l.length = 32 := hL l (List.mem_cons_self l L)
      have h2 : r.length = 32 := hR r (List.mem_cons_self r R)
      have hI : interleaveLR (l :: L) (r :: R) ++ tail =
          l ++ (r ++ (interleaveLR L R ++ tail)) := by
        simp [interleaveLR, List.append_assoc]
      cases i with
      | zero =>
        constructor
        · exact read32At_of_decomp _ [] l (r ++ (interleaveLR L R ++ tail)) _
            (by simpa using hI) rfl h1
        · exact read32At_of_decomp _ (l ++ []) r (interleaveLR L R ++ tail) _
            (by simpa using hI) (by simp [h1]) h2
      | succ i =>
        have hiL : i < L.length := by simpa using hi
        have hiR : i < R.length := by simpa using hi2
        have ihi := ih R tail (fun c hc => hL c (List.mem_cons_of_mem _ hc))
          (fun c hc => hR c (List.mem_cons_of_mem _ hc)) (by simpa using hlen)
          i hiL hiR
        have hdrop : ∀ o, read32At (interleaveLR (l :: L) (r :: R) ++ tail) (64 + o) =
            read32At (interleaveLR L R ++ tail) o := by
          intro o
          rw [read32At, read32At, hI]
          congr 1
          rw [show (64 : ℕ) + o = l.length + (r.length + o) by omega]
          rw [List.drop_append, List.drop_append]
        constructor
        · rw [show 2 * (i + 1) * 32 = 64 + 2 * i * 32 by ring, hdrop]
          simpa using ihi.1
        · rw [show (2 * (i + 1) + 1) * 32 = 64 + (2 * i + 1) * 32 by ring, hdrop]
          simpa using ihi.2

lemma ipp_toBytes_length (p : InnerProductProof)
    (hLR : p.L_vec.length = p.R_vec.length)
    (hL : ∀ c ∈ p.L_vec, c.length = 32) (hR : ∀ c ∈ p.R_vec, c.length = 32) :
    p.toBytes.length = 64 * p.L_vec.length + 64 := by
  simp [InnerProductProof.toBytes, interleaveLR_length p.L_vec p.R_vec hL hR hLR,
    scalarToBytes_length]

lemma ipp_fromBytes_toBytes (p : InnerProductProof)
    (hLR : p.L_vec.length = p.R_vec.length)
    (hL : ∀ c ∈ p.L_vec, c.length = 32) (hR : ∀ c ∈ p.R_vec, c.length = 32) :
    InnerProductProof.fromBytes p.toBytes = .ok p := by
  obtain ⟨L, R, a, b⟩ := p
  simp only at hLR hL hR
  have haB := scalarToBytes_length a
  have hbB := scalarToBytes_length b
  have hil := interleaveLR_length L R hL hR hLR
  have hslen := ipp_toBytes_length ⟨L, R, a, b⟩ hLR hL hR
  simp only at hslen
  have hsB : InnerProductProof.toBytes ⟨L, R, a, b⟩ =
      interleaveLR L R ++ (scalarToBytes a ++ scalarToBytes b) := by
    simp [InnerProductProof.toBytes, List.append_assoc]
  have hreadA : read32At (InnerProductProof.toBytes ⟨L, R, a, b⟩)
      (2 * L.length * 32) = scalarToBytes a :=
    read32At_of_decomp _ (interleaveLR L R) _ (scalarToBytes b) _ (by rw [hsB]) 
      (by rw [hil]; ring) haB
  have hreadB : read32At (InnerProductProof.toBytes ⟨L, R, a, b⟩)
      ((2 * L.length + 1) * 32) = scalarToBytes b :=
    read32At_of_decomp _ (interleaveLR L R ++ scalarToBytes a) _ [] _
      (by rw [hsB]; simp [List.append_assoc])
      (by simp only [List.length_append, hil, haB]; ring) hbB
  have hk : ((64 * L.length + 64) / 32 - 2) / 2 = L.length := by omega
  rw [InnerProductProof.fromBytes]
  rw [hslen]
  rw [if_neg (by omega), if_neg (by omega), if_neg (by omega), hk, hreadA, hreadB,
    scalarFromCanonicalBytes_scalarToBytes, scalarFromCanonicalBytes_scalarToBytes]
  have hgetL : (List.range L.length).map
      (fun i => read32At (InnerProductProof.toBytes ⟨L, R, a, b⟩) (2 * i * 32)) = L := by
    refine List.ext_getElem (by simp) fun i h1 h2 => ?_
    simp only [List.getElem_map, List.getElem_range]
    have hi : i < L.length := by simpa using h2
    have := (interleaveLR_reads L R (scalarToBytes a ++ scalarToBytes b) hL hR hLR i hi
      (hLR ▸ hi)).1
    rw [hsB, this]
    simp [List.get_eq_getElem]
  have hgetR : (List.range L.length).map
      (fun i => read32At (InnerProductProof.toBytes ⟨L, R, a, b⟩) ((2 * i + 1) * 32)) = R := by
    refine List.ext_getElem (by simpa using hLR) fun i h1 h2 => ?_
    simp only [List.getElem_map, List.getElem_range]
    have hi : i < R.length := by simpa using h2
    have := (interleaveLR_reads L R (scalarToBytes a ++ scalarToBytes b) hL hR hLR i
      (hLR ▸ hi) hi).2
    rw [hsB, this]
    simp [List.get_eq_getElem]
  rw [hgetL, hgetR]

lemma rp_toBytes_length (p : RangeProof)
    (hA : p.A.length = 32) (hS : p.S.length = 32)
    (hT1 : p.T_1.length = 32) (hT2 : p.T_2.length = 32)
    (hLR : p.ipp_proof.L_vec.length = p.ipp_proof.R_vec.length)
    (hL : ∀ c ∈ p.ipp_proof.L_vec, c.length = 32)
    (hR : ∀ c ∈ p.ipp_proof.R_vec, c.length = 32) :
    p.toBytes.length = 32 * (9 + 2 * p.ipp_proof.L_vec.length) := by
  have := ipp_toBytes_length p.ipp_proof hLR hL hR
  simp only [RangeProof.toBytes, List.length_append, hA, hS, hT1, hT2,
    scalarToBytes_length, this]
  ring

lemma rp_fromBytes_toBytes (p : RangeProof)
    (hA : p.A.length = 32) (hS : p.S.length = 32)
    (hT1 : p.T_1.length = 32) (hT2 : p.T_2.length = 32)
    (hLR : p.ipp_proof.L_vec.length = p.ipp_proof.R_vec.length)
    (hL : ∀ c ∈ p.ipp_proof.L_vec, c.length = 32)
    (hR : ∀ c ∈ p.ipp_proof.R_vec, c.length = 32) :
    RangeProof.fromBytes p.toBytes = .ok p := by
  obtain ⟨A, S, T_1, T_2, t_x, t_xb, e_b, ipp⟩ := p
  simp only at hA hS hT1 hT2 hLR hL hR
  have hlen := rp_toBytes_length ⟨A, S, T_1, T_2, t_x, t_xb, e_b, ipp⟩
    hA hS hT1 hT2 hLR hL hR
  simp only at hlen
  have htx := scalarToBytes_length t_x
  have htxb := scalarToBytes_length t_xb
  have heb := scalarToBytes_length e_b
  have hsB : RangeProof.toBytes ⟨A, S, T_1, T_2, t_x, t_xb, e_b, ipp⟩ =
      A ++ (S ++ (T_1 ++ (T_2 ++ (scalarToBytes t_x ++ (scalarToBytes t_xb ++
        (scalarToBytes e_b ++ ipp.toBytes)))))) := by
    simp [RangeProof.toBytes, List.append_assoc]
  rw [RangeProof.fromBytes]
  rw [hlen]
  rw [if_neg (by omega), if_neg (by omega)]
  have r0 : read32At (RangeProof.toBytes ⟨A, S, T_1, T_2, t_x, t_xb, e_b, ipp⟩) (0 * 32) = A :=
    read32At_of_decomp _ [] _ _ _ (by rw [hsB]; rfl) (by simp) hA
  have r1 : read32At (RangeProof.toBytes ⟨A, S, T_1, T_2, t_x, t_xb, e_b, ipp⟩) (1 * 32) = S :=
    read32At_of_decomp _ A _ _ _ (by rw [hsB]) (by simp [hA]) hS
  have r2 : read32At (RangeProof.toBytes ⟨A, S, T_1, T_2, t_x, t_xb, e_b, ipp⟩) (2 * 32) = T_1 :=
    read32At_of_decomp _ (A ++ S) _
      (T_2 ++ (scalarToBytes t_x ++ (scalarToBytes t_xb ++ (scalarToBytes e_b ++ ipp.toBytes))))
      _ (by rw [hsB]; simp [List.append_assoc]) (by simp [hA, hS]) hT1
  have r3 : read32At (RangeProof.toBytes ⟨A, S, T_1, T_2, t_x, t_xb, e_b, ipp⟩) (3 * 32) = T_2 :=
    read32At_of_decomp _ (A ++ S ++ T_1) _
      (scalarToBytes t_x ++ (scalarToBytes t_xb ++ (scalarToBytes e_b ++ ipp.toBytes)))
      _ (by rw [hsB]; simp [List.append_assoc]) (by simp [hA, hS, hT1]) hT2
  have r4 : read32At (RangeProof.toBytes ⟨A, S, T_1, T_2, t_x, t_xb, e_b, ipp⟩) (4 * 32) =
      scalarToBytes t_x :=
    read32At_of_decomp _ (A ++ S ++ T_1 ++ T_2) _
      (scalarToBytes t_xb ++ (scalarToBytes e_b ++ ipp.toBytes)) _
      (by rw [hsB]; simp [List.append_assoc]) (by simp [hA, hS, hT1, hT2]) htx
  have r5 : read32At (RangeProof.toBytes ⟨A, S, T_1, T_2, t_x, t_xb, e_b, ipp⟩) (5 * 32) =
      scalarToBytes t_xb :=
    read32At_of_decomp _ (A ++ S ++ T_1 ++ T_2 ++ scalarToBytes t_x) _
      (scalarToBytes e_b ++ ipp.toBytes) _
      (by rw [hsB]; simp [List.append_assoc]) (by simp [hA, hS, hT1, hT2, htx]) htxb
  have r6 : read32At (RangeProof.toBytes ⟨A, S, T_1, T_2, t_x, t_xb, e_b, ipp⟩) (6 * 32) =
      scalarToBytes e_b :=
    read32At_of_decomp _ (A ++ S ++ T_1 ++ T_2 ++ scalarToBytes t_x ++ scalarToBytes t_xb)
      _ ipp.toBytes _ (by rw [hsB]; simp [List.append_assoc])
      (by simp [hA, hS, hT1, hT2, htx, htxb]) heb
  have rdrop : (RangeProof.toBytes ⟨A, S, T_1, T_2, t_x, t_xb, e_b, ipp⟩).drop (7 * 32) =
      ipp.toBytes :=
    drop_of_decomp _ (A ++ S ++ T_1 ++ T_2 ++ scalarToBytes t_x ++ scalarToBytes t_xb ++
      scalarToBytes e_b) _ _ (by rw [hsB]; simp [List.append_assoc])
      (by simp [hA, hS, hT1, hT2, htx, htxb, heb])
  rw [r4, r5, r6, scalarFromCanonicalBytes_scalarToBytes,
    scalarFromCanonicalBytes_scalarToBytes, scalarFromCanonicalBytes_scalarToBytes,
    rdrop, ipp_fromBytes_toBytes ipp hLR hL hR, r0, r1, r2, r3]

/-- **C2**: for every `RangeProof` built over parameters `(n, m)` (so that
its `L_vec` and `R_vec` have length `log₂(n·m)` and all compressed points
are 32-byte strings), `from_bytes (to_bytes p)` succeeds and returns `p`
field for field, and `to_bytes p` has length `32·(7 + 2·log₂(n·m) + 2)`. -/
theorem rangeproof_roundtrip (p : RangeProof) (n m : ℕ)
    (hA : p.A.length = 32) (hS : p.S.length = 32)
    (hT1 : p.T_1.length = 32) (hT2 : p.T_2.length = 32)
    (hkL : p.ipp_proof.L_vec.length = Nat.log2 (n * m))
    (hkR : p.ipp_proof.R_vec.length = Nat.log2 (n * m))
    (hL : ∀ c ∈ p.ipp_proof.L_vec, c.length = 32)
    (hR : ∀ c ∈ p.ipp_proof.R_vec, c.length = 32) :
    RangeProof.fromBytes p.toBytes = .ok p ∧
      p.toBytes.length = 32 * (7 + 2 * Nat.log2 (n * m) + 2) := by
  have hLR : p.ipp_proof.L_vec.length = p.ipp_proof.R_vec.length := by rw [hkL, hkR]
  refine ⟨rp_fromBytes_toBytes p hA hS hT1 hT2 hLR hL hR, ?_⟩
  rw [rp_toBytes_length p hA hS hT1 hT2 hLR hL hR, hkL]
  ring

/-- Concrete example proof over `(n, m) = (8, 1)` (`log₂ 8 = 3`), used to
witness the serialization round-trip. -/
def exampleProofC2 : RangeProof :=
  ⟨List.replicate 32 1, List.replicate 32 2, List.replicate 32 3, List.replicate 32 4,
    5, 6, 7,
    ⟨[List.replicate 32 8, List.replicate 32 9, List.replicate 32 10],
      [List.replicate 32 11, List.replicate 32 12, List.replicate 32 13], 14, 15⟩⟩

/-- Witness for `rangeproof_roundtrip` at a concrete proof with
`(n, m) = (8, 1)`. -/
theorem rangeproof_roundtrip_witness :
    RangeProof.fromBytes exampleProofC2.toBytes = .ok exampleProofC2 ∧
      exampleProofC2.toBytes.length = 32 * (7 + 2 * Nat.log2 (8 * 1) + 2) :=
  rangeproof_roundtrip exampleProofC2 8 1 (by decide) (by decide) (by decide) (by decide)
    (by simp [exampleProofC2, Nat.log2]) (by simp [exampleProofC2, Nat.log2])
    (by decide) (by decide)

/-! ### C6: deserialization error conditions -/

/-- **C6**: `RangeProof::from_bytes` returns `FormatError` whenever the
length is not a multiple of 32 or is below `7·32`, and whenever any of the
three scalar fields at offsets `4·32`, `5·32`, `6·32` is a non-canonical
scalar encoding. -/
theorem fromBytes_error_conditions (s : Bytes) :
    (s.length % 32 ≠ 0 → RangeProof.fromBytes s = .error .FormatError) ∧
    (s.length < 7 * 32 → RangeProof.fromBytes s = .error .FormatError) ∧
    ((scalarFromCanonicalBytes (read32At s (4 * 32)) = none ∨
      scalarFromCanonicalBytes (read32At s (5 * 32)) = none ∨
      scalarFromCanonicalBytes (read32At s (6 * 32)) = none) →
        RangeProof.fromBytes s = .error .FormatError) := by
  refine ⟨fun h => by rw [RangeProof.fromBytes, if_pos h], fun h => ?_, fun h => ?_⟩
  · rw [RangeProof.fromBytes]
    by_cases h1 : s.length % 32 ≠ 0
    · rw [if_pos h1]
    · rw [if_neg h1, if_pos h]
  · rw [RangeProof.fromBytes]
    by_cases h1 : s.length % 32 ≠ 0
    · rw [if_pos h1]
    · rw [if_neg h1]
      by_cases h2 : s.length < 7 * 32
      · rw [if_pos h2]
      · rw [if_neg h2]
        cases hx4 : scalarFromCanonicalBytes (read32At s (4 * 32)) <;>
          cases hx5 : scalarFromCanonicalBytes (read32At s (5 * 32)) <;>
            cases hx6 : scalarFromCanonicalBytes (read32At s (6 * 32)) <;>
              simp_all

/-- Witness for `fromBytes_error_conditions`: a 33-byte string is rejected. -/
theorem fromBytes_error_conditions_witness :
    (List.replicate 33 0 : Bytes).length % 32 ≠ 0 ∧
      RangeProof.fromBytes (List.replicate 33 0) = .error .FormatError :=
  ⟨by decide, (fromBytes_error_conditions (List.replicate 33 0)).1 (by decide)⟩

/-! ### Transcript, generators and the batch collector -/

/-- Modelled from the spec: the merlin transcript (out of scope per §1; §6
gives the labelled protocol): an abstract state type with labelled
domain-separation, append and challenge operations, each advancing the
state. -/
structure TranscriptOps (T : Type) where
  rangeproof_domain_sep : ℕ → ℕ → T → T
  append_point : String → Bytes → T → T
  append_scalar : String → Scalar → T → T
  challenge_scalar : String → T → Scalar × T

/-- The compressed encoding of the identity point (32 zero bytes). -/
def identityBytes : Bytes := List.replicate 32 0

/-- Modelled from the spec: `TranscriptProtocol::validate_and_append_point`
(transcript.rs is not under src/; §4.3: invalid point — identity after
compression — while being appended gives `VerificationError`). -/
def validateAndAppendPoint (ops : TranscriptOps T) (label : String) (p : Bytes) (t : T) :
    Except ProofError T :=
  if p = identityBytes then .error .VerificationError
  else .ok (ops.append_point label p t)

/-- Modelled from the spec: the IPP verification vector `s` (§4.2:
`s_i = Π_j u_j^{b_ij}`, `b_ij = +1` if bit `j` of `i` is set else `−1`,
with the first challenge paired with the most significant bit). -/
def sVec : List Scalar → List Scalar
  | [] => [1]
  | u :: us => ((sVec us).map fun x => u⁻¹ * x) ++ ((sVec us).map fun x => u * x)

/-- Modelled from the spec: the per-round transcript interaction of
`InnerProductProof::verification_scalars` (§4.2, §6: labels "L", "R", "u"):
validate and append each `L_j`, `R_j`, then draw challenge `u_j`. -/
def ippRounds (ops : TranscriptOps T) :
    List (Bytes × Bytes) → T → Except ProofError (List Scalar × T)
  | [], t => .ok ([], t)
  | lr :: rest, t =>
    match validateAndAppendPoint ops "L" lr.1 t with
    | .error e => .error e
    | .ok t1 =>
      match validateAndAppendPoint ops "R" lr.2 t1 with
      | .error e => .error e
      | .ok t2 =>
        let ut := ops.challenge_scalar "u" t2
        match ippRounds ops rest ut.2 with
        | .error e => .error e
        | .ok p => .ok (ut.1 :: p.1, p.2)

/-- The challenges recomputed by `BatchCollector::add_proof` while replaying
the prover's transcript (source lines 609-642). -/
structure ReplayOut where
  y : Scalar
  z : Scalar
  x : Scalar
  w : Scalar
  us : List Scalar
  c : Scalar

/-- The transcript replay of `BatchCollector::add_proof`
(`src/range_proof/mod.rs` lines 595-642), with the pure scalar computations
factored out: in source order, the rangeproof domain separation, the `V`
appends, validated `A`/`S` appends, challenges `y` and `z`, validated
`T_1`/`T_2` appends, challenge `x`, the `t_x`/`t_x_blinding`/`e_blinding`
appends, challenge `w`, the inner-product length check and `L/R/u` rounds
of `verification_scalars`, the `ipp_a`/`ipp_b` appends, and the batching
challenge `c`. -/
def replayTranscript (ops : TranscriptOps T) (proof : RangeProof) (vcBytes : List Bytes)
    (n m : ℕ) (t0 : T) : Except ProofError (ReplayOut × T) :=
  let t1 := ops.rangeproof_domain_sep n m t0
  let t2 := vcBytes.foldl (fun tt v => ops.append_point "V" v tt) t1
  match validateAndAppendPoint ops "A" proof.A t2 with
  | .error e => .error e
  | .ok t3 =>
    match validateAndAppendPoint ops "S" proof.S t3 with
    | .error e => .error e
    | .ok t4 =>
      let yt := ops.challenge_scalar "y" t4
      let zt := ops.challenge_scalar "z" yt.2
      match validateAndAppendPoint ops "T_1" proof.T_1 zt.2 with
      | .error e => .error e
      | .ok t5 =>
        match validateAndAppendPoint ops "T_2" proof.T_2 t5 with
        | .error e => .error e
        | .ok t6 =>
          let xt := ops.challenge_scalar "x" t6
          let t7 := ops.append_scalar "t_x" proof.t_x xt.2
          let t8 := ops.append_scalar "t_x_blinding" proof.t_x_blinding t7
          let t9 := ops.append_scalar "e_blinding" proof.e_blinding t8
          let wt := ops.challenge_scalar "w" t9
          if n * m ≠ 2 ^ proof.ipp_proof.L_vec.length then .error .VerificationError
          else
            match ippRounds ops (proof.ipp_proof.L_vec.zip proof.ipp_proof.R_vec) wt.2 with
            | .error e => .error e
            | .ok ust =>
              let ta := ops.append_scalar "ipp_a" proof.ipp_proof.a ust.2
              let tb := ops.append_scalar "ipp_b" proof.ipp_proof.b ta
              let ct := ops.challenge_scalar "c" tb
              .ok (⟨yt.1, zt.1, xt.1, wt.1, ust.1, ct.1⟩, ct.2)

/-- Modelled from the spec: `PedersenGens` (§3; generators.rs is not under
src/): the fixed pair of independent generators `(B, B_blinding)`. -/
structure PedersenGens (Point : Type) where
  B : Point
  B_blinding : Point

/-- Modelled from the spec: `BulletproofGens` (§3; generators.rs is not
under src/): two generator tables indexed by party and bit, with the
capacities. -/
structure BulletproofGens (Point : Type) where
  gens_capacity : ℕ
  party_capacity : ℕ
  G : ℕ → ℕ → Point
  H : ℕ → ℕ → Point

/-- Modelled from the spec: the aggregated generator iterator
`BulletproofGens::G(n, m)` (generators.rs is not under src/; §4.4: "the full
`G`-matrix ... up to the running maximum"): party-major enumeration
`f 0 0, …, f 0 (n-1), f 1 0, …, f (m-1) (n-1)`. -/
def flattenGens (f : ℕ → ℕ → Point) (n m : ℕ) : List Point :=
  (List.range m).flatMap fun j => (List.range n).map fun i => f j i

/-- `RangeProofView` (`src/range_proof/mod.rs` lines 538-543).  A value
commitment is modelled by the pair of its `decompress()` result and its
`compress()` bytes (covering all three `ValueCommitment` impls). -/
structure RangeProofView (Point T : Type) where
  proof : RangeProof
  transcript : T
  value_commitments : List (Option Point × Bytes)
  n : ℕ

/-- `BatchCollector` (`src/range_proof/mod.rs` lines 547-558). -/
structure BatchCollector (Point : Type) where
  dynamic_scalars : List Scalar
  dynamic_points : List (Option Point)
  pedersen_B_scalar : Scalar
  pedersen_B_blinding_scalar : Scalar
  g_scalars : List (List Scalar)
  h_scalars : List (List Scalar)
  party_capacity : ℕ
  gens_capacity : ℕ
  bp_gens : BulletproofGens Point
  pc_gens : PedersenGens Point

/-- `BatchCollector::new` (`src/range_proof/mod.rs` lines 561-574). -/
def BatchCollector.new (bp : BulletproofGens Point) (pc : PedersenGens Point) :
    BatchCollector Point :=
  ⟨[], [], 0, 0, [], [], 0, 0, bp, pc⟩

/-- `Vec::resize(k, Scalar::ZERO)` on one scalar row. -/
def resizeRow (row : List Scalar) (k : ℕ) : List Scalar :=
  row.take k ++ List.replicate (k - row.length) 0

/-- `resize_with(party_capacity, || vec![])` followed by per-row
`resize(gens_capacity, Scalar::ZERO)` (`src/range_proof/mod.rs` lines
697-704). -/
def resizeMatrix (mat : List (List Scalar)) (parties gens : ℕ) : List (List Scalar) :=
  (mat.take parties ++ List.replicate (parties - mat.length) []).map fun row =>
    resizeRow row gens

/-- The nested accumulation loop of `src/range_proof/mod.rs` lines 706-711:
`mat[j][i] += vals[j*n + i] * r` for `j < m`, `i < n`, consuming `vals`
sequentially. -/
def accumulateMatrix (mat : List (List Scalar)) (vals : List Scalar) (r : Scalar)
    (m n : ℕ) : List (List Scalar) :=
  mat.mapIdx fun j row =>
    if j < m then
      row.mapIdx fun i v => if i < n then v + vals.getD (j * n + i) 0 * r else v
    else row

/-- `BatchCollector::add_proof` (`src/range_proof/mod.rs` lines 576-714).
The transcript interaction is `replayTranscript`; the mutation of the
collector happens, as in the source, only after every fallible step, so an
error returns the collector unchanged together with the transcript.  The
batch factor `r` models the `Scalar::random(rng)` draw; `decompress` is the
external curve library's fallible point decompression. -/
def addProof (ops : TranscriptOps T) (decompress : Bytes → Option Point)
    (c : BatchCollector Point) (view : RangeProofView Point T) (r : Scalar) :
    BatchCollector Point × T × Option ProofError :=
  let m := view.value_commitments.length
  if ¬(view.n = 8 ∨ view.n = 16 ∨ view.n = 32 ∨ view.n = 64) then
    (c, view.transcript, some .InvalidBitsize)
  else if c.bp_gens.gens_capacity < view.n then
    (c, view.transcript, some .InvalidGeneratorsLength)
  else if c.bp_gens.party_capacity < m then
    (c, view.transcript, some .InvalidGeneratorsLength)
  else
    match replayTranscript ops view.proof (view.value_commitments.map Prod.snd)
        view.n m view.transcript with
    | .error e => (c, view.transcript, some e)
    | .ok (out, t) =>
      let x_sq := out.us.map fun u => u ^ 2
      let x_inv_sq := out.us.map fun u => (u⁻¹) ^ 2
      let s := sVec out.us
      let s_inv := s.reverse
      let a := view.proof.ipp_proof.a
      let b := view.proof.ipp_proof.b
      let zz := out.z * out.z
      let minus_z := -out.z
      let powers_of_2 := (List.range view.n).map fun i => (2 : Scalar) ^ i
      let concat_z_and_2 :=
        (List.range m).flatMap fun j => powers_of_2.map fun e2 => e2 * out.z ^ j
      let g := s.map fun s_i => minus_z - a * s_i
      let h := ((s_inv.zip ((List.range (view.n * m)).map fun i => (out.y⁻¹) ^ i)).zip
          concat_z_and_2).map fun p => out.z + p.1.2 * (zz * p.2 - b * p.1.1)
      let value_commitment_scalars := (List.range m).map fun j => out.c * zz * out.z ^ j
      let basepoint_scalar := out.w * (view.proof.t_x - a * b) +
        out.c * (delta view.n m out.y out.z - view.proof.t_x)
      let party_capacity := max c.party_capacity m
      let gens_capacity := max c.gens_capacity view.n
      ({ c with
          dynamic_scalars := c.dynamic_scalars ++
            (([1, out.x, out.c * out.x, out.c * out.x * out.x] ++ x_sq ++ x_inv_sq ++
              value_commitment_scalars).map fun sc => sc * r),
          dynamic_points := c.dynamic_points ++
            ([decompress view.proof.A, decompress view.proof.S,
              decompress view.proof.T_1, decompress view.proof.T_2] ++
              view.proof.ipp_proof.L_vec.map decompress ++
              view.proof.ipp_proof.R_vec.map decompress ++
              view.value_commitments.map Prod.fst),
          pedersen_B_blinding_scalar := c.pedersen_B_blinding_scalar +
            (-view.proof.e_blinding - out.c * view.proof.t_x_blinding) * r,
          pedersen_B_scalar := c.pedersen_B_scalar + basepoint_scalar * r,
          party_capacity := party_capacity,
          gens_capacity := gens_capacity,
          g_scalars := accumulateMatrix (resizeMatrix c.g_scalars party_capacity gens_capacity)
            g r m view.n,
          h_scalars := accumulateMatrix (resizeMatrix c.h_scalars party_capacity gens_capacity)
            h r m view.n },
        t, none)

/-- `Option<Vec<_>>`-style sequencing: `some` of all elements, or `none` if
any element is absent. -/
def sequenceOpt : List (Option α) → Option (List α)
  | [] => some []
  | none :: _ => none
  | some a :: rest => (sequenceOpt rest).map fun l => a :: l

/-- Modelled from the spec: the external curve library's
`optional_multiscalar_mul` (§3 data model: MSM over optionally-present
points, reporting failure if any is absent). -/
def optionalMSM [AddCommMonoid Point] [SMul Scalar Point]
    (scalars : List Scalar) (points : List (Option Point)) : Option Point :=
  match sequenceOpt points with
  | none => none
  | some ps => some (((scalars.zip ps).map fun sp => sp.1 • sp.2).sum)

/-- `BatchCollector::verify` (`src/range_proof/mod.rs` lines 716-754): one
multi-scalar multiplication of the accumulated dynamic scalars/points, the
flattened `g`/`h` scalar matrices against the generator tables, and the two
Pedersen scalars against `B_blinding` and `B`; accepts exactly when the
result is the identity. -/
def BatchCollector.verify [AddCommGroup Point] [Module Scalar Point] [DecidableEq Point]
    (c : BatchCollector Point) : Except ProofError Unit :=
  match optionalMSM
      (c.dynamic_scalars ++ c.g_scalars.flatten ++ c.h_scalars.flatten ++
        [c.pedersen_B_blinding_scalar, c.pedersen_B_scalar])
      (c.dynamic_points ++
        ((flattenGens c.bp_gens.G c.gens_capacity c.party_capacity).map fun p => some p) ++
        ((flattenGens c.bp_gens.H c.gens_capacity c.party_capacity).map fun p => some p) ++
        [some c.pc_gens.B_blinding, some c.pc_gens.B]) with
  | none => .error .VerificationError
  | some P => if P = 0 then .ok () else .error .VerificationError

/-- The `add_proof` loop of `RangeProof::verify_batch_with_rng`
(`src/range_proof/mod.rs` lines 438-441), with the per-proof random batch
factors supplied as a list. -/
def addProofs (ops : TranscriptOps T) (decompress : Bytes → Option Point) :
    List (RangeProofView Point T) → List Scalar → BatchCollector Point →
      Except ProofError (BatchCollector Point)
  | [], _, c => .ok c
  | v :: vs, rs, c =>
    match addProof ops decompress c v (rs.headD 0) with
    | (_, _, some e) => .error e
    | (c1, _, none) => addProofs ops decompress vs rs.tail c1

/-- `RangeProof::verify_batch_with_rng` (`src/range_proof/mod.rs` lines
432-444): fold all views into a fresh collector, then finalise. -/
def verifyBatchWithRng [AddCommGroup Point] [Module Scalar Point] [DecidableEq Point]
    (ops : TranscriptOps T) (decompress : Bytes → Option Point)
    (views : List (RangeProofView Point T)) (rs : List Scalar)
    (bp : BulletproofGens Point) (pc : PedersenGens Point) : Except ProofError Unit :=
  match addProofs ops decompress views rs (BatchCollector.new bp pc) with
  | .error e => .error e
  | .ok c => c.verify

/-! ### C10, C3: finalisation of the batch -/

lemma sequenceOpt_eq_none_of_mem {α : Type} (l : List (Option α)) (h : none ∈ l) :
    sequenceOpt l = none := by
  induction l with
  | nil => simp at h
  | cons o rest ih =>
    cases o with
    | none => rfl
    | some a =>
      rw [List.mem_cons] at h
      rcases h with h | h
      · exact absurd h.symm (Option.some_ne_none a)
      · rw [sequenceOpt, ih h]
        rfl

lemma verify_error_of_none_mem [AddCommGroup Point] [Module Scalar Point]
    [DecidableEq Point] (c : BatchCollector Point) (h : none ∈ c.dynamic_points) :
    c.verify = .error .VerificationError := by
  rw [BatchCollector.verify, optionalMSM, sequenceOpt_eq_none_of_mem]
  exact List.mem_append_left _ (List.mem_append_left _ (List.mem_append_left _ h))

/-- **C3**: `BatchCollector::verify` returns `Ok` if and only if the single
multi-scalar multiplication combining the accumulated dynamic scalars and
points, the flattened `g`/`h` scalar matrices with the `G`/`H` generator
tables, and the two accumulated Pedersen scalars with `B_blinding` and `B`,
evaluates to the identity point; and if any accumulated dynamic point is
absent the result is `VerificationError`. -/
theorem verify_ok_iff_msm_identity [AddCommGroup Point] [Module Scalar Point]
    [DecidableEq Point] (c : BatchCollector Point) :
    (c.verify = .ok () ↔
      optionalMSM
        (c.dynamic_scalars ++ c.g_scalars.flatten ++ c.h_scalars.flatten ++
          [c.pedersen_B_blinding_scalar, c.pedersen_B_scalar])
        (c.dynamic_points ++
          ((flattenGens c.bp_gens.G c.gens_capacity c.party_capacity).map fun p => some p) ++
          ((flattenGens c.bp_gens.H c.gens_capacity c.party_capacity).map fun p => some p) ++
          [some c.pc_gens.B_blinding, some c.pc_gens.B]) = some 0) ∧
    (none ∈ c.dynamic_points → c.verify = .error .VerificationError) := by
  refine ⟨?_, verify_error_of_none_mem c⟩
  rw [BatchCollector.verify]
  cases hm : optionalMSM
      (c.dynamic_scalars ++ c.g_scalars.flatten ++ c.h_scalars.flatten ++
        [c.pedersen_B_blinding_scalar, c.pedersen_B_scalar])
      (c.dynamic_points ++
        ((flattenGens c.bp_gens.G c.gens_capacity c.party_capacity).map fun p => some p) ++
        ((flattenGens c.bp_gens.H c.gens_capacity c.party_capacity).map fun p => some p) ++
        [some c.pc_gens.B_blinding, some c.pc_gens.B]) with
  | none => simp
  | some P =>
    by_cases hP : P = 0
    · subst hP
      simp
    · simp [hP]

/-- Witness for `verify_ok_iff_msm_identity`: a collector holding one absent
dynamic point is rejected. -/
theorem verify_ok_iff_msm_identity_witness :
    (none ∈ ([none] : List (Option Scalar))) ∧
      BatchCollector.verify
        (⟨[0], [none], 0, 0, [], [], 0, 0, ⟨0, 0, fun _ _ => 0, fun _ _ => 0⟩, ⟨0, 0⟩⟩ :
          BatchCollector Scalar) = .error .VerificationError :=
  ⟨List.mem_singleton.mpr rfl,
    (verify_ok_iff_msm_identity
      (⟨[0], [none], 0, 0, [], [], 0, 0, ⟨0, 0, fun _ _ => 0, fun _ _ => 0⟩, ⟨0, 0⟩⟩ :
        BatchCollector Scalar)).2 (List.mem_singleton.mpr rfl)⟩

/-- **C10**: `verify_batch_with_rng` on an empty iterator of views returns
`Ok` for every choice of generators, transcript operations and batch
factors: the finalisation MSM degenerates to `0·B_blinding + 0·B = 0`. -/
theorem verify_batch_empty_accepts [AddCommGroup Point] [Module Scalar Point]
    [DecidableEq Point] (ops : TranscriptOps T) (decompress : Bytes → Option Point)
    (rs : List Scalar) (bp : BulletproofGens Point) (pc : PedersenGens Point) :
    verifyBatchWithRng ops decompress [] rs bp pc = .ok () := by
  simp only [verifyBatchWithRng, addProofs]
  rw [BatchCollector.verify]
  simp [BatchCollector.new, optionalMSM, sequenceOpt, flattenGens]

/-! ### C8, C9: add_proof error behaviour -/

/-- **C8**: `add_proof` rejects `n ∉ {8,16,32,64}` with `InvalidBitsize`,
and (for a valid bitsize) rejects `n > gens_capacity` or
`m > party_capacity` with `InvalidGeneratorsLength`; in each case nothing
has been appended to the view's transcript (the returned transcript is the
view's own) and the collector is unchanged. -/
theorem addProof_parameter_rejection (ops : TranscriptOps T)
    (decompress : Bytes → Option Point) (c : BatchCollector Point)
    (view : RangeProofView Point T) (r : Scalar) :
    (¬(view.n = 8 ∨ view.n = 16 ∨ view.n = 32 ∨ view.n = 64) →
      addProof ops decompress c view r = (c, view.transcript, some .InvalidBitsize)) ∧
    ((view.n = 8 ∨ view.n = 16 ∨ view.n = 32 ∨ view.n = 64) →
      c.bp_gens.gens_capacity < view.n →
      addProof ops decompress c view r = (c, view.transcript, some .InvalidGeneratorsLength)) ∧
    ((view.n = 8 ∨ view.n = 16 ∨ view.n = 32 ∨ view.n = 64) →
      view.n ≤ c.bp_gens.gens_capacity →
      c.bp_gens.party_capacity < view.value_commitments.length →
      addProof ops decompress c view r = (c, view.transcript, some .InvalidGeneratorsLength)) := by
  refine ⟨fun h => ?_, fun hn h => ?_, fun hn hg h => ?_⟩
  · rw [addProof, if_pos h]
  · rw [addProof, if_neg (not_not_intro hn), if_pos h]
  · rw [addProof, if_neg (not_not_intro hn), if_neg (by omega), if_pos h]

/-- Transcript operations over the trivial (unit) transcript state, drawing
every challenge from a fixed label-indexed table. -/
def labelOps (f : String → Scalar) : TranscriptOps Unit :=
  ⟨fun _ _ _ => (), fun _ _ _ => (), fun _ _ _ => (), fun label _ => (f label, ())⟩

/-- Trivial transcript operations: every challenge is `1`. -/
def constOps : TranscriptOps Unit := labelOps fun _ => 1

/-- An empty collector over `Point := Scalar` with capacities `(64, 8)`. -/
def exampleCollector : BatchCollector Scalar :=
  BatchCollector.new ⟨64, 8, fun _ _ => 0, fun _ _ => 0⟩ ⟨0, 0⟩

/-- A view with invalid bitsize `n = 7`. -/
def exampleViewBadN : RangeProofView Scalar Unit :=
  ⟨⟨List.replicate 32 1, List.replicate 32 1, List.replicate 32 1, List.replicate 32 1,
    0, 0, 0, ⟨[], [], 0, 0⟩⟩, (), [(some 0, List.replicate 32 1)], 7⟩

/-- Witness for `addProof_parameter_rejection` at `n = 7`. -/
theorem addProof_parameter_rejection_witness :
    ¬(exampleViewBadN.n = 8 ∨ exampleViewBadN.n = 16 ∨ exampleViewBadN.n = 32 ∨
      exampleViewBadN.n = 64) ∧
    addProof constOps (fun _ => none) exampleCollector exampleViewBadN 0 =
      (exampleCollector, (), some .InvalidBitsize) :=
  ⟨by decide,
    (addProof_parameter_rejection constOps (fun _ => none) exampleCollector
      exampleViewBadN 0).1 (by decide)⟩

/-- **C9**: if `add_proof` returns an error, the collector's accumulated
state is exactly what it was before the call: every fallible step (the
parameter checks, the transcript replay with point validation, the
inner-product length check) occurs before the first mutation of the
collector. -/
theorem addProof_error_is_atomic (ops : TranscriptOps T)
    (decompress : Bytes → Option Point) (c : BatchCollector Point)
    (view : RangeProofView Point T) (r : Scalar)
    (h : (addProof ops decompress c view r).2.2 ≠ none) :
    (addProof ops decompress c view r).1 = c := by
  rw [addProof] at h ⊢
  by_cases h1 : ¬(view.n = 8 ∨ view.n = 16 ∨ view.n = 32 ∨ view.n = 64)
  · rw [if_pos h1]
  · rw [if_neg h1] at h ⊢
    by_cases h2 : c.bp_gens.gens_capacity < view.n
    · rw [if_pos h2]
    · rw [if_neg h2] at h ⊢
      by_cases h3 : c.bp_gens.party_capacity < view.value_commitments.length
      · rw [if_pos h3]
      · rw [if_neg h3] at h ⊢
        cases hrep : replayTranscript ops view.proof (view.value_commitments.map Prod.snd)
            view.n view.value_commitments.length view.transcript with
        | error e => rfl
        | ok outt =>
          rw [hrep] at h
          obtain ⟨out, t⟩ := outt
          simp at h

/-- Witness for `addProof_error_is_atomic` at the invalid-bitsize input. -/
theorem addProof_error_is_atomic_witness :
    (addProof constOps (fun _ => none) exampleCollector exampleViewBadN 0).2.2 ≠ none ∧
      (addProof constOps (fun _ => none) exampleCollector exampleViewBadN 0).1 =
        exampleCollector :=
  ⟨by decide,
    addProof_error_is_atomic constOps (fun _ => none) exampleCollector exampleViewBadN 0
      (by decide)⟩

/-! ### Success path of add_proof -/

lemma addProof_ok_eq (ops : TranscriptOps T) (decompress : Bytes → Option Point)
    (c : BatchCollector Point) (view : RangeProofView Point T) (r : Scalar)
    (out : ReplayOut) (t : T)
    (hn : view.n = 8 ∨ view.n = 16 ∨ view.n = 32 ∨ view.n = 64)
    (hg : view.n ≤ c.bp_gens.gens_capacity)
    (hp : view.value_commitments.length ≤ c.bp_gens.party_capacity)
    (hrep : replayTranscript ops view.proof (view.value_commitments.map Prod.snd)
      view.n view.value_commitments.length view.transcript = .ok (out, t)) :
    addProof ops decompress c view r =
      ({ dynamic_scalars := c.dynamic_scalars ++
          (([1, out.x, out.c * out.x, out.c * out.x * out.x] ++
            (out.us.map fun u => u ^ 2) ++ (out.us.map fun u => (u⁻¹) ^ 2) ++
            ((List.range view.value_commitments.length).map fun j =>
              out.c * (out.z * out.z) * out.z ^ j)).map fun sc => sc * r),
         dynamic_points := c.dynamic_points ++
          ([decompress view.proof.A, decompress view.proof.S,
            decompress view.proof.T_1, decompress view.proof.T_2] ++
            view.proof.ipp_proof.L_vec.map decompress ++
            view.proof.ipp_proof.R_vec.map decompress ++
            view.value_commitments.map Prod.fst),
         pedersen_B_scalar := c.pedersen_B_scalar +
          (out.w * (view.proof.t_x - view.proof.ipp_proof.a * view.proof.ipp_proof.b) +
            out.c * (delta view.n view.value_commitments.length out.y out.z -
              view.proof.t_x)) * r,
         pedersen_B_blinding_scalar := c.pedersen_B_blinding_scalar +
          (-view.proof.e_blinding - out.c * view.proof.t_x_blinding) * r,
         g_scalars := accumulateMatrix
          (resizeMatrix c.g_scalars (max c.party_capacity view.value_commitments.length)
            (max c.gens_capacity view.n))
          ((sVec out.us).map fun s_i => -out.z - view.proof.ipp_proof.a * s_i) r
          view.value_commitments.length view.n,
         h_scalars := accumulateMatrix
          (resizeMatrix c.h_scalars (max c.party_capacity view.value_commitments.length)
            (max c.gens_capacity view.n))
          ((((sVec out.us).reverse.zip
              ((List.range (view.n * view.value_commitments.length)).map fun i =>
                (out.y⁻¹) ^ i)).zip
            ((List.range view.value_commitments.length).flatMap fun j =>
              (((List.range view.n).map fun i => (2 : Scalar) ^ i).map fun e2 =>
                e2 * out.z ^ j))).map fun p =>
            out.z + p.1.2 * (out.z * out.z * p.2 - view.proof.ipp_proof.b * p.1.1)) r
          view.value_commitments.length view.n,
         party_capacity := max c.party_capacity view.value_commitments.length,
         gens_capacity := max c.gens_capacity view.n,
         bp_gens := c.bp_gens,
         pc_gens := c.pc_gens }, t, none) := by
  rw [addProof, if_neg (not_not_intro hn), if_neg (by omega), if_neg (by omega), hrep]

/-! ### C7: deferred point decompression -/

/-- **C7**: `from_bytes` accepts arbitrary 32-byte strings for the
compressed point fields without decompressing them (the stored fields are
the input bytes verbatim, for every decompression behaviour); a point that
fails to decompress is only detected at verification: `add_proof` still
succeeds, collecting the absent point into the MSM inputs, and the final
`verify` reports `VerificationError`. -/
theorem deferred_point_decompression (ops : TranscriptOps T)
    [AddCommGroup Point] [Module Scalar Point] [DecidableEq Point]
    (decompress : Bytes → Option Point) (c : BatchCollector Point)
    (view : RangeProofView Point T) (r : Scalar) (out : ReplayOut) (t : T)
    (hA32 : view.proof.A.length = 32) (hS32 : view.proof.S.length = 32)
    (hT1 : view.proof.T_1.length = 32) (hT2 : view.proof.T_2.length = 32)
    (hLR : view.proof.ipp_proof.L_vec.length = view.proof.ipp_proof.R_vec.length)
    (hL : ∀ cc ∈ view.proof.ipp_proof.L_vec, cc.length = 32)
    (hR : ∀ cc ∈ view.proof.ipp_proof.R_vec, cc.length = 32)
    (hn : view.n = 8 ∨ view.n = 16 ∨ view.n = 32 ∨ view.n = 64)
    (hg : view.n ≤ c.bp_gens.gens_capacity)
    (hp : view.value_commitments.length ≤ c.bp_gens.party_capacity)
    (hrep : replayTranscript ops view.proof (view.value_commitments.map Prod.snd)
      view.n view.value_commitments.length view.transcript = .ok (out, t))
    (hAno : decompress view.proof.A = none) :
    RangeProof.fromBytes view.proof.toBytes = .ok view.proof ∧
    (addProof ops decompress c view r).2.2 = none ∧
    BatchCollector.verify (addProof ops decompress c view r).1 =
      .error .VerificationError := by
  refine ⟨rp_fromBytes_toBytes view.proof hA32 hS32 hT1 hT2 hLR hL hR, ?_, ?_⟩
  · rw [addProof_ok_eq ops decompress c view r out t hn hg hp hrep]
  · refine verify_error_of_none_mem _ ?_
    rw [addProof_ok_eq ops decompress c view r out t hn hg hp hrep]
    simp [hAno]

/-- A view over `Point := Scalar` whose proof has well-formed byte fields
(none of them the identity encoding) with `n = 8`, `m = 1`. -/
def exampleViewC7 : RangeProofView Scalar Unit :=
  ⟨⟨List.replicate 32 1, List.replicate 32 1, List.replicate 32 1, List.replicate 32 1,
    1, 2, 3,
    ⟨[List.replicate 32 2, List.replicate 32 2, List.replicate 32 2],
     [List.replicate 32 2, List.replicate 32 2, List.replicate 32 2], 4, 5⟩⟩,
    (), [(some 0, List.replicate 32 1)], 8⟩

/-- Witness for `deferred_point_decompression`: under the always-failing
decompression every hypothesis holds concretely for `exampleViewC7`. -/
theorem deferred_point_decompression_witness :
    RangeProof.fromBytes exampleViewC7.proof.toBytes = .ok exampleViewC7.proof ∧
    (addProof constOps (fun _ => (none : Option Scalar)) exampleCollector exampleViewC7
      0).2.2 = none ∧
    BatchCollector.verify (addProof constOps (fun _ => (none : Option Scalar))
      exampleCollector exampleViewC7 0).1 = .error .VerificationError :=
  deferred_point_decompression constOps (fun _ => none) exampleCollector exampleViewC7 0
    ⟨1, 1, 1, 1, [1, 1, 1], 1⟩ () (by decide) (by decide) (by decide) (by decide)
    (by decide) (by decide) (by decide) (by decide) (by decide) (by decide) rfl rfl

/-! ### C4: per-generator accumulation formulas -/

lemma resizeRow_length (row : List Scalar) (k : ℕ) : (resizeRow row k).length = k := by
  simp only [resizeRow, List.length_append, List.length_take, List.length_replicate]
  omega

lemma resizeMatrix_length (mat : List (List Scalar)) (p g : ℕ) :
    (resizeMatrix mat p g).length = p := by
  simp only [resizeMatrix, List.length_map, List.length_append, List.length_take,
    List.length_replicate]
  omega

lemma resizeMatrix_row_length (mat : List (List Scalar)) (p g j : ℕ) (hj : j < p) :
    ((resizeMatrix mat p g).getD j []).length = g := by
  have hlen : j < (resizeMatrix mat p g).length := by rw [resizeMatrix_length]; exact hj
  rw [List.getD_eq_getElem _ _ hlen]
  unfold resizeMatrix
  rw [List.getElem_map]
  exact resizeRow_length _ _

lemma accumulateMatrix_getD (mat : List (List Scalar)) (vals : List Scalar) (r : Scalar)
    (m n j i : ℕ) (hj : j < mat.length) (hi : i < (mat.getD j []).length)
    (hjm : j < m) (hin : i < n) :
    ((accumulateMatrix mat vals r m n).getD j []).getD i 0 =
      (mat.getD j []).getD i 0 + vals.getD (j * n + i) 0 * r := by
  have hj2 : j < (accumulateMatrix mat vals r m n).length := by
    simpa [accumulateMatrix] using hj
  rw [List.getD_eq_getElem _ _ hj2]
  unfold accumulateMatrix
  rw [List.getElem_mapIdx, if_pos hjm]
  rw [List.getD_eq_getElem _ _ hj] at hi
  have hi2 : i < (mat[j].mapIdx fun i v =>
      if i < n then v + vals.getD (j * n + i) 0 * r else v).length := by
    simpa using hi
  rw [List.getD_eq_getElem _ _ hi2, List.getElem_mapIdx, if_pos hin,
    List.getD_eq_getElem _ _ hj, List.getD_eq_getElem _ _ hi]

lemma flatMap_range_getD {α : Type} (n : ℕ) (d : α) :
    ∀ (j : ℕ) (f : ℕ → List α), (∀ k, (f k).length = n) →
      ∀ (m i : ℕ), j < m → i < n →
        ((List.range m).flatMap f).getD (j * n + i) d = (f j).getD i d := by
  intro j
  induction j with
  | zero =>
    intro f hlen m i hm hi
    cases m with
    | zero => omega
    | succ m =>
      rw [List.range_succ_eq_map, List.flatMap_cons]
      simp only [Nat.zero_mul, Nat.zero_add]
      rw [List.getD_append _ _ _ _ (by rw [hlen 0]; exact hi)]
  | succ j ih =>
    intro f hlen m i hm hi
    cases m with
    | zero => omega
    | succ m =>
      rw [List.range_succ_eq_map, List.flatMap_cons, List.flatMap_map]
      have harith : (j + 1) * n + i = (f 0).length + (j * n + i) := by rw [hlen 0]; ring
      rw [harith, List.getD_append_right _ _ _ _ (by omega)]
      have hsub : (f 0).length + (j * n + i) - (f 0).length = j * n + i := by omega
      rw [hsub]
      exact ih (fun k => f (k + 1)) (fun k => hlen (k + 1)) m i (by omega) hi

lemma sVec_length (us : List Scalar) : (sVec us).length = 2 ^ us.length := by
  induction us with
  | nil => rfl
  | cons u us ih => simp [sVec, ih]; ring

lemma zmod_isUnit_inv {a : Scalar} (ha : IsUnit a) : IsUnit a⁻¹ :=
  isUnit_of_mul_eq_one a⁻¹ a (ZMod.inv_mul_of_unit a ha)

lemma zmod_inv_unique {a x : Scalar} (ha : IsUnit a) (hx : x * a = 1) : x = a⁻¹ := by
  calc x = x * (a * a⁻¹) := by rw [ZMod.mul_inv_of_unit a ha, mul_one]
  _ = (x * a) * a⁻¹ := by ring
  _ = a⁻¹ := by rw [hx, one_mul]

lemma zmod_mul_inv {a b : Scalar} (ha : IsUnit a) (hb : IsUnit b) :
    (a * b)⁻¹ = a⁻¹ * b⁻¹ := by
  refine (zmod_inv_unique (ha.mul hb) ?_).symm
  calc a⁻¹ * b⁻¹ * (a * b) = (a⁻¹ * a) * (b⁻¹ * b) := by ring
  _ = 1 := by rw [ZMod.inv_mul_of_unit a ha, ZMod.inv_mul_of_unit b hb, one_mul]

lemma zmod_inv_inv {a : Scalar} (ha : IsUnit a) : a⁻¹⁻¹ = a :=
  (zmod_inv_unique (zmod_isUnit_inv ha) (ZMod.mul_inv_of_unit a ha)).symm

lemma sVec_mem_isUnit (us : List Scalar) (hu : ∀ u ∈ us, IsUnit u) :
    ∀ x ∈ sVec us, IsUnit x := by
  induction us with
  | nil =>
    intro x hx
    rw [sVec, List.mem_singleton] at hx
    exact hx ▸ isUnit_one
  | cons u us ih =>
    intro x hx
    have hu1 : IsUnit u := hu u (List.mem_cons_self u us)
    have hrest : ∀ v ∈ us, IsUnit v := fun v hv => hu v (List.mem_cons_of_mem _ hv)
    rw [sVec, List.mem_append] at hx
    rcases hx with hx | hx <;> rw [List.mem_map] at hx <;> obtain ⟨y, hy, rfl⟩ := hx
    · exact (zmod_isUnit_inv hu1).mul (ih hrest y hy)
    · exact hu1.mul (ih hrest y hy)

lemma sVec_reverse_eq_map_inv (us : List Scalar) (hu : ∀ u ∈ us, IsUnit u) :
    (sVec us).reverse = (sVec us).map fun x => x⁻¹ := by
  induction us with
  | nil => simp [sVec, inv_one]
  | cons u us ih =>
    have hu1 : IsUnit u := hu u (List.mem_cons_self u us)
    have hrest : ∀ v ∈ us, IsUnit v := fun v hv => hu v (List.mem_cons_of_mem _ hv)
    rw [sVec, List.reverse_append, List.map_append, List.map_map, List.map_map,
      ← List.map_reverse, ← List.map_reverse, ih hrest, List.map_map, List.map_map]
    congr 1
    · refine List.map_congr_left fun x hx => ?_
      have hxu : IsUnit x := sVec_mem_isUnit us hrest x hx
      simp only [Function.comp_apply]
      rw [zmod_mul_inv (zmod_isUnit_inv hu1) hxu, zmod_inv_inv hu1]
    · refine List.map_congr_left fun x hx => ?_
      have hxu : IsUnit x := sVec_mem_isUnit us hrest x hx
      simp only [Function.comp_apply]
      rw [zmod_mul_inv hu1 hxu]

lemma flatMap_range_length {α : Type} (f : ℕ → List α) (n m : ℕ)
    (h : ∀ k, (f k).length = n) : ((List.range m).flatMap f).length = m * n := by
  induction m with
  | zero => simp
  | succ m ih =>
    rw [List.range_succ, List.flatMap_append, List.length_append, ih, List.flatMap_cons,
      List.flatMap_nil, List.append_nil, h m]
    ring

lemma flat_index_lt (j i n m : ℕ) (hj : j < m) (hi : i < n) : j * n + i < n * m := by
  have h1 : j * n + i < (j + 1) * n := by
    rw [Nat.succ_mul]
    omega
  have h2 : (j + 1) * n ≤ m * n := Nat.mul_le_mul_right n (by omega)
  rw [Nat.mul_comm n m]
  omega

lemma addProof_g_entry (ops : TranscriptOps T) (decompress : Bytes → Option Point)
    (c : BatchCollector Point) (view : RangeProofView Point T) (r : Scalar)
    (out : ReplayOut) (t : T)
    (hn : view.n = 8 ∨ view.n = 16 ∨ view.n = 32 ∨ view.n = 64)
    (hg : view.n ≤ c.bp_gens.gens_capacity)
    (hp : view.value_commitments.length ≤ c.bp_gens.party_capacity)
    (hrep : replayTranscript ops view.proof (view.value_commitments.map Prod.snd)
      view.n view.value_commitments.length view.transcript = .ok (out, t))
    (hpow : view.n * view.value_commitments.length = 2 ^ out.us.length)
    (j i : ℕ) (hj : j < view.value_commitments.length) (hi : i < view.n) :
    (((addProof ops decompress c view r).1.g_scalars.getD j []).getD i 0 =
      ((resizeMatrix c.g_scalars
          (max c.party_capacity view.value_commitments.length)
          (max c.gens_capacity view.n)).getD j []).getD i 0 +
        (-out.z - view.proof.ipp_proof.a *
          (sVec out.us).getD (j * view.n + i) 0) * r) := by
  have hk : j * view.n + i < view.n * view.value_commitments.length :=
    flat_index_lt j i view.n view.value_commitments.length hj hi
  have hsvl : (sVec out.us).length = view.n * view.value_commitments.length := by
    rw [sVec_length, ← hpow]
  rw [addProof_ok_eq ops decompress c view r out t hn hg hp hrep]
  dsimp only
  rw [accumulateMatrix_getD _ _ _ _ _ _ _
    (by rw [resizeMatrix_length]; omega)
    (by rw [resizeMatrix_row_length _ _ _ _ (by omega)]; omega) hj hi]
  congr 1
  have hmap : j * view.n + i < ((sVec out.us).map fun s_i =>
      -out.z - view.proof.ipp_proof.a * s_i).length := by
    rw [List.length_map, hsvl]; exact hk
  rw [List.getD_eq_getElem _ _ hmap, List.getElem_map,
    List.getD_eq_getElem _ _ (by rw [hsvl]; exact hk)]

lemma addProof_h_entry (ops : TranscriptOps T) (decompress : Bytes → Option Point)
    (c : BatchCollector Point) (view : RangeProofView Point T) (r : Scalar)
    (out : ReplayOut) (t : T)
    (hn : view.n = 8 ∨ view.n = 16 ∨ view.n = 32 ∨ view.n = 64)
    (hg : view.n ≤ c.bp_gens.gens_capacity)
    (hp : view.value_commitments.length ≤ c.bp_gens.party_capacity)
    (hrep : replayTranscript ops view.proof (view.value_commitments.map Prod.snd)
      view.n view.value_commitments.length view.transcript = .ok (out, t))
    (hpow : view.n * view.value_commitments.length = 2 ^ out.us.length)
    (j i : ℕ) (hj : j < view.value_commitments.length) (hi : i < view.n) :
    (((addProof ops decompress c view r).1.h_scalars.getD j []).getD i 0 =
      ((resizeMatrix c.h_scalars
          (max c.party_capacity view.value_commitments.length)
          (max c.gens_capacity view.n)).getD j []).getD i 0 +
        (out.z + (out.y⁻¹) ^ (j * view.n + i) *
          (out.z * out.z * ((2 : Scalar) ^ i * out.z ^ j) -
            view.proof.ipp_proof.b *
              (sVec out.us).reverse.getD (j * view.n + i) 0)) * r) := by
  have hk : j * view.n + i < view.n * view.value_commitments.length :=
    flat_index_lt j i view.n view.value_commitments.length hj hi
  have hsvl : (sVec out.us).reverse.length = view.n * view.value_commitments.length := by
    rw [List.length_reverse, sVec_length, ← hpow]
  have hY : ((List.range (view.n * view.value_commitments.length)).map fun i =>
      (out.y⁻¹) ^ i).length = view.n * view.value_commitments.length := by
    rw [List.length_map, List.length_range]
  have hC : ((List.range view.value_commitments.length).flatMap fun j =>
      (((List.range view.n).map fun i => (2 : Scalar) ^ i).map fun e2 =>
        e2 * out.z ^ j)).length = view.value_commitments.length * view.n := by
    refine flatMap_range_length _ view.n _ fun k => ?_
    rw [List.length_map, List.length_map, List.length_range]
  rw [addProof_ok_eq ops decompress c view r out t hn hg hp hrep]
  dsimp only
  rw [accumulateMatrix_getD _ _ _ _ _ _ _
    (by rw [resizeMatrix_length]; omega)
    (by rw [resizeMatrix_row_length _ _ _ _ (by omega)]; omega) hj hi]
  congr 1
  have hz1 : ((sVec out.us).reverse.zip
      ((List.range (view.n * view.value_commitments.length)).map fun i =>
        (out.y⁻¹) ^ i)).length = view.n * view.value_commitments.length := by
    rw [List.length_zip, hsvl, hY, Nat.min_self]
  have hz2 : (((sVec out.us).reverse.zip
      ((List.range (view.n * view.value_commitments.length)).map fun i =>
        (out.y⁻¹) ^ i)).zip
      ((List.range view.value_commitments.length).flatMap fun j =>
        (((List.range view.n).map fun i => (2 : Scalar) ^ i).map fun e2 =>
          e2 * out.z ^ j))).length = view.n * view.value_commitments.length := by
    rw [List.length_zip, hz1, hC, Nat.mul_comm, Nat.min_self]
  have hmaplen : j * view.n + i < ((((sVec out.us).reverse.zip
      ((List.range (view.n * view.value_commitments.length)).map fun i =>
        (out.y⁻¹) ^ i)).zip
      ((List.range view.value_commitments.length).flatMap fun j =>
        (((List.range view.n).map fun i => (2 : Scalar) ^ i).map fun e2 =>
          e2 * out.z ^ j))).map fun p =>
        out.z + p.1.2 * (out.z * out.z * p.2 -
          view.proof.ipp_proof.b * p.1.1)).length := by
    rw [List.length_map, hz2]; exact hk
  have hCelem : ((List.range view.value_commitments.length).flatMap fun j =>
      (((List.range view.n).map fun i => (2 : Scalar) ^ i).map fun e2 =>
        e2 * out.z ^ j)).getD (j * view.n + i) 0 = (2 : Scalar) ^ i * out.z ^ j := by
    rw [flatMap_range_getD view.n 0 j _
      (fun k => by rw [List.length_map, List.length_map, List.length_range]) _ i hj hi]
    have hplen : i < (((List.range view.n).map fun i => (2 : Scalar) ^ i).map fun e2 =>
        e2 * out.z ^ j).length := by
      rw [List.length_map, List.length_map, List.length_range]; exact hi
    rw [List.getD_eq_getElem _ _ hplen, List.getElem_map, List.getElem_map,
      List.getElem_range]
  rw [List.getD_eq_getElem _ _ hmaplen, List.getElem_map, List.getElem_zip,
    List.getElem_zip]
  dsimp only
  rw [List.getElem_map, List.getElem_range]
  rw [← List.getD_eq_getElem ((List.range view.value_commitments.length).flatMap fun j =>
      (((List.range view.n).map fun i => (2 : Scalar) ^ i).map fun e2 =>
        e2 * out.z ^ j)) 0
    (by rw [hC, Nat.mul_comm view.value_commitments.length view.n]; exact hk), hCelem]
  rw [← List.getD_eq_getElem ((sVec out.us).reverse) 0 (by rw [hsvl]; exact hk)]

/-- **C4 (amended)**: with the per-proof batch factor `r` and the
transcript-derived challenges, `add_proof` accumulates, for each
`(party, bit)` index `(j, i)` with flat index `k = j·n + i`,
`g_scalars[j][i] += r·(−z − a·s_k)` and
`h_scalars[j][i] += r·(z + y^{−k}·(z²·z^j·2^i − b·s_rev_k))` on top of the
zero-padded (resized) matrices, where `s` is the inner-product verification
scalar vector and `s_rev` its reverse; when the inner-product challenges
are invertible, `s_rev_k = s_k⁻¹`. -/
theorem addProof_gh_accumulation (ops : TranscriptOps T)
    (decompress : Bytes → Option Point)
    (c : BatchCollector Point) (view : RangeProofView Point T) (r : Scalar)
    (out : ReplayOut) (t : T)
    (hn : view.n = 8 ∨ view.n = 16 ∨ view.n = 32 ∨ view.n = 64)
    (hg : view.n ≤ c.bp_gens.gens_capacity)
    (hp : view.value_commitments.length ≤ c.bp_gens.party_capacity)
    (hrep : replayTranscript ops view.proof (view.value_commitments.map Prod.snd)
      view.n view.value_commitments.length view.transcript = .ok (out, t))
    (hpow : view.n * view.value_commitments.length = 2 ^ out.us.length)
    (j i : ℕ) (hj : j < view.value_commitments.length) (hi : i < view.n) :
    (((addProof ops decompress c view r).1.g_scalars.getD j []).getD i 0 =
      ((resizeMatrix c.g_scalars
          (max c.party_capacity view.value_commitments.length)
          (max c.gens_capacity view.n)).getD j []).getD i 0 +
        r * (-out.z - view.proof.ipp_proof.a *
          (sVec out.us).getD (j * view.n + i) 0)) ∧
    (((addProof ops decompress c view r).1.h_scalars.getD j []).getD i 0 =
      ((resizeMatrix c.h_scalars
          (max c.party_capacity view.value_commitments.length)
          (max c.gens_capacity view.n)).getD j []).getD i 0 +
        r * (out.z + (out.y⁻¹) ^ (j * view.n + i) *
          (out.z * out.z * out.z ^ j * (2 : Scalar) ^ i -
            view.proof.ipp_proof.b *
              (sVec out.us).reverse.getD (j * view.n + i) 0))) ∧
    ((∀ u ∈ out.us, IsUnit u) →
      (sVec out.us).reverse.getD (j * view.n + i) 0 =
        ((sVec out.us).getD (j * view.n + i) 0)⁻¹) := by
  have hk : j * view.n + i < view.n * view.value_commitments.length :=
    flat_index_lt j i view.n view.value_commitments.length hj hi
  refine ⟨?_, ?_, ?_⟩
  · rw [addProof_g_entry ops decompress c view r out t hn hg hp hrep hpow j i hj hi]
    ring
  · rw [addProof_h_entry ops decompress c view r out t hn hg hp hrep hpow j i hj hi]
    ring
  · intro hu
    rw [sVec_reverse_eq_map_inv out.us hu]
    have hb : j * view.n + i < ((sVec out.us).map fun x => x⁻¹).length := by
      rw [List.length_map, sVec_length, ← hpow]; exact hk
    rw [List.getD_eq_getElem _ _ hb, List.getElem_map,
      ← List.getD_eq_getElem (sVec out.us) 0 (by rw [sVec_length, ← hpow]; exact hk)]

/-- Transcript operations (unit state) drawing `y = 2` and `1` for every
other challenge. -/
def exampleOpsC4 : TranscriptOps Unit :=
  labelOps fun label => if label = "y" then 2 else 1

/-- A view with `n = 8`, `m = 2`, inner-product final scalars `a = b = 0`
and well-formed non-identity point encodings. -/
def exampleViewC4 : RangeProofView Scalar Unit :=
  ⟨⟨List.replicate 32 1, List.replicate 32 1, List.replicate 32 1, List.replicate 32 1,
    1, 1, 1,
    ⟨[List.replicate 32 2, List.replicate 32 2, List.replicate 32 2, List.replicate 32 2],
     [List.replicate 32 2, List.replicate 32 2, List.replicate 32 2, List.replicate 32 2],
     0, 0⟩⟩,
    (), [(some 0, List.replicate 32 1), (some 0, List.replicate 32 1)], 8⟩

/-- Witness for `addProof_gh_accumulation` at `exampleViewC4`,
`(j, i) = (1, 0)`. -/
theorem addProof_gh_accumulation_witness :
    (((addProof exampleOpsC4 (fun _ => (none : Option Scalar)) exampleCollector
        exampleViewC4 1).1.g_scalars.getD 1 []).getD 0 0 =
      ((resizeMatrix exampleCollector.g_scalars
          (max exampleCollector.party_capacity exampleViewC4.value_commitments.length)
          (max exampleCollector.gens_capacity exampleViewC4.n)).getD 1 []).getD 0 0 +
        1 * (-(1 : Scalar) - exampleViewC4.proof.ipp_proof.a *
          (sVec [1, 1, 1, 1]).getD (1 * exampleViewC4.n + 0) 0)) :=
  (addProof_gh_accumulation exampleOpsC4 (fun _ => none) exampleCollector exampleViewC4 1
    ⟨2, 1, 1, 1, [1, 1, 1, 1], 1⟩ () (by decide) (by decide) (by decide) rfl (by decide)
    1 0 (by decide) (by decide)).1

/-- The per-entry `h` update exactly as the claim words it for a
`(party, bit)` index `(j, i)`:
`r·(z + y^{−i}·(z²·z^j·2^i − b·s_i⁻¹))`, with the bit index `i` both in the
power of `y⁻¹` and indexing `s`. -/
def claimedHUpdate (y z b r : Scalar) (s : List Scalar) (j i : ℕ) : Scalar :=
  r * (z + (y⁻¹) ^ i * (z * z * z ^ j * 2 ^ i - b * (s.getD i 0)⁻¹))

lemma isUnit_two_scalar : IsUnit (2 : Scalar) := by
  rw [show ((2 : Scalar)) = ((2 : ℕ) : Scalar) by norm_num, ZMod.isUnit_iff_coprime]
  decide

/-- Counterexample to **C4** as stated: at `(party, bit) = (1, 0)` with
challenges `y = 2`, `z = x = w = c = 1` and inner-product challenges all
`1`, the code accumulates `h_scalars[1][0]` with `y^{−(j·n+i)} = y⁻⁸`,
while the claimed formula uses `y^{−i} = y⁰ = 1`; the two differ because
`2⁻⁸ ≠ 1` in the Ristretto255 scalar field. -/
theorem addProof_h_claim_counterexample :
    ¬ (((addProof exampleOpsC4 (fun _ => (none : Option Scalar)) exampleCollector
          exampleViewC4 1).1.h_scalars.getD 1 []).getD 0 0 =
        ((resizeMatrix exampleCollector.h_scalars
            (max exampleCollector.party_capacity exampleViewC4.value_commitments.length)
            (max exampleCollector.gens_capacity exampleViewC4.n)).getD 1 []).getD 0 0 +
          claimedHUpdate 2 1 0 1 (sVec [1, 1, 1, 1]) 1 0) := by
  intro hclaim
  have hcode := addProof_h_entry exampleOpsC4 (fun _ => none) exampleCollector
    exampleViewC4 1 ⟨2, 1, 1, 1, [1, 1, 1, 1], 1⟩ () (by decide) (by decide) (by decide)
    rfl (by decide) 1 0 (by decide) (by decide)
  rw [hclaim] at hcode
  have hcancel := add_left_cancel hcode
  have hclaimval : claimedHUpdate 2 1 0 1 (sVec [1, 1, 1, 1]) 1 0 = 2 := by
    rw [claimedHUpdate]
    norm_num
  have hcodeval : ((1 : Scalar) + ((2 : Scalar)⁻¹) ^ (1 * exampleViewC4.n + 0) *
      ((1 : Scalar) * 1 * ((2 : Scalar) ^ 0 * (1 : Scalar) ^ 1) -
        exampleViewC4.proof.ipp_proof.b *
          (sVec [1, 1, 1, 1]).reverse.getD (1 * exampleViewC4.n + 0) 0)) * 1 =
      1 + ((2 : Scalar)⁻¹) ^ 8 := by
    have hb0 : exampleViewC4.proof.ipp_proof.b = 0 := rfl
    rw [hb0]
    norm_num [exampleViewC4]
  rw [hcodeval] at hcancel
  rw [hclaimval] at hcancel
  have hpow8 : ((2 : Scalar)⁻¹) ^ 8 = 1 := by
    have h2 : (1 : Scalar) + 2⁻¹ ^ 8 = 1 + 1 := by
      rw [← hcancel]
      norm_num
    exact add_left_cancel h2
  exact absurd hpow8 (by
    intro habs
    have h1 : ((2 : Scalar)⁻¹ * 2) ^ 8 = 2 ^ 8 := by
      rw [mul_pow, habs, one_mul]
    rw [ZMod.inv_mul_of_unit 2 isUnit_two_scalar, one_pow] at h1
    have h256 : (256 : Scalar) = 1 := by
      have : ((2 : Scalar)) ^ 8 = 256 := by norm_num
      rw [this] at h1
      exact h1.symm
    exact absurd h256 (by decide))

/-! ### C1: completeness — list dot-product utilities -/

/-- `Σ sᵢ • Pᵢ` over two lists, zipped pointwise (the multi-scalar
multiplication of the external curve library, §3). -/
def dotPS [AddCommMonoid Point] [SMul Scalar Point] (a : List Scalar) (P : List Point) :
    Point :=
  (List.zipWith (fun x p => x • p) a P).sum

section DotLemmas

variable {Point : Type} [AddCommGroup Point] [Module Scalar Point]

lemma dotPS_nil_left (P : List Point) : dotPS [] P = 0 := rfl

lemma dotPS_cons (x : Scalar) (p : Point) (a : List Scalar) (P : List Point) :
    dotPS (x :: a) (p :: P) = x • p + dotPS a P := by
  simp [dotPS]

lemma dotPS_append (a1 a2 : List Scalar) (P1 P2 : List Point)
    (h : a1.length = P1.length) :
    dotPS (a1 ++ a2) (P1 ++ P2) = dotPS a1 P1 + dotPS a2 P2 := by
  rw [dotPS, List.zipWith_append _ _ _ _ _ h, List.sum_append]
  rfl

lemma dotPS_smul_left (c : Scalar) (a : List Scalar) (P : List Point) :
    dotPS (a.map fun x => c * x) P = c • dotPS a P := by
  induction a generalizing P with
  | nil => simp [dotPS]
  | cons x a ih =>
    cases P with
    | nil => simp [dotPS]
    | cons p P =>
      rw [List.map_cons, dotPS_cons, dotPS_cons, ih, smul_add, mul_smul]

lemma dotPS_mul_left (a b : List Scalar) (P : List Point) :
    dotPS (List.zipWith (fun x y => x * y) a b) P =
      dotPS a (List.zipWith (fun y p => y • p) b P) := by
  induction a generalizing b P with
  | nil => simp [dotPS]
  | cons x a ih =>
    cases b with
    | nil => simp [dotPS]
    | cons y b =>
      cases P with
      | nil => simp [dotPS]
      | cons p P =>
        simp only [List.zipWith_cons_cons, dotPS_cons, ih, mul_smul]

lemma dotPS_take_drop (k : ℕ) (a : List Scalar) (P : List Point)
    (h : (a.take k).length = (P.take k).length) :
    dotPS a P = dotPS (a.take k) (P.take k) + dotPS (a.drop k) (P.drop k) := by
  conv_lhs => rw [← List.take_append_drop k a, ← List.take_append_drop k P]
  rw [dotPS_append _ _ _ _ h]

lemma dotPS_fold_expand (p q r s : Scalar) (aL aR : List Scalar) (PL PR : List Point)
    (h1 : aL.length = aR.length) (h2 : aL.length = PL.length)
    (h3 : aL.length = PR.length) :
    dotPS (List.zipWith (fun x y => p * x + q * y) aL aR)
        (List.zipWith (fun X Y => r • X + s • Y) PL PR) =
      (p * r) • dotPS aL PL + (p * s) • dotPS aL PR +
        (q * r) • dotPS aR PL + (q * s) • dotPS aR PR := by
  induction aL generalizing aR PL PR with
  | nil =>
    obtain rfl : aR = [] := List.eq_nil_of_length_eq_zero (by simpa using h1.symm)
    obtain rfl : PL = [] := List.eq_nil_of_length_eq_zero (by simpa using h2.symm)
    obtain rfl : PR = [] := List.eq_nil_of_length_eq_zero (by simpa using h3.symm)
    simp [dotPS]
  | cons x a ih =>
    cases aR with
    | nil => simp at h1
    | cons y aR =>
      cases PL with
      | nil => simp at h2
      | cons X PL =>
        cases PR with
        | nil => simp at h3
        | cons Y PR =>
          simp only [List.zipWith_cons_cons, dotPS_cons]
          rw [ih aR PL PR (by simpa using h1) (by simpa using h2) (by simpa using h3)]
          module

end DotLemmas

/-! ### C1: the inner-product argument (prover side) -/

/-- `⟨a, b⟩` over scalar lists. -/
def dotS (a b : List Scalar) : Scalar := (List.zipWith (fun x y => x * y) a b).sum

lemma dotS_eq_dotPS (a b : List Scalar) : dotS a b = dotPS a b := by
  unfold dotS dotPS
  congr 1

/-- Output of one inner-product proof creation: final scalars, the `L`/`R`
points, the drawn challenges and the final transcript. -/
structure IppCreateOut (Point T : Type) where
  a : Scalar
  b : Scalar
  Ls : List Point
  Rs : List Point
  us : List Scalar
  t : T

/-- One halving round of `InnerProductProof::create`: the committed `L`,
`R`, the drawn challenge `u`, the folded vectors and bases, and the
advanced transcript. -/
structure IppRound (Point T : Type) where
  L : Point
  R : Point
  u : Scalar
  aP : List Scalar
  bP : List Scalar
  GP : List Point
  HP : List Point
  t : T

/-- Modelled from the spec: one round of `InnerProductProof::create` (§4.2;
inner_product_proof.rs is not under src/): split the vectors and bases in
half, commit `L = ⟨a_L,G_R⟩ + ⟨b_R,H_L⟩ + ⟨a_L,b_R⟩·Q` and
`R = ⟨a_R,G_L⟩ + ⟨b_L,H_R⟩ + ⟨a_R,b_L⟩·Q`, append both (labels "L", "R"),
draw challenge `u`, fold `a ← a_L·u + a_R·u⁻¹`, `b ← b_L·u⁻¹ + b_R·u`,
`G ← G_L·u⁻¹ + G_R·u`, `H ← H_L·u + H_R·u⁻¹`. -/
def ippStep {Point T : Type} [AddCommGroup Point] [Module Scalar Point]
    (ops : TranscriptOps T) (compress : Point → Bytes) (Q : Point)
    (a b : List Scalar) (Gv Hv : List Point) (t : T) : IppRound Point T :=
  let k := a.length / 2
  let L := dotPS (a.take k) (Gv.drop k) + dotPS (b.drop k) (Hv.take k) +
    dotS (a.take k) (b.drop k) • Q
  let R := dotPS (a.drop k) (Gv.take k) + dotPS (b.take k) (Hv.drop k) +
    dotS (a.drop k) (b.take k) • Q
  let t1 := ops.append_point "L" (compress L) t
  let t2 := ops.append_point "R" (compress R) t1
  let ut := ops.challenge_scalar "u" t2
  let u := ut.1
  ⟨L, R, u,
    List.zipWith (fun x y => x * u + y * u⁻¹) (a.take k) (a.drop k),
    List.zipWith (fun x y => x * u⁻¹ + y * u) (b.take k) (b.drop k),
    List.zipWith (fun X Y => u⁻¹ • X + u • Y) (Gv.take k) (Gv.drop k),
    List.zipWith (fun X Y => u • X + u⁻¹ • Y) (Hv.take k) (Hv.drop k),
    ut.2⟩

/-- Modelled from the spec: `InnerProductProof::create` (§4.2): `d` halving
rounds of `ippStep`; when no rounds remain emit the final scalars. -/
def ippCreateT {Point T : Type} [AddCommGroup Point] [Module Scalar Point]
    (ops : TranscriptOps T) (compress : Point → Bytes) (Q : Point) :
    ℕ → List Scalar → List Scalar → List Point → List Point → T → IppCreateOut Point T
  | 0, a, b, _, _, t => ⟨a.headD 0, b.headD 0, [], [], [], t⟩
  | d + 1, a, b, Gv, Hv, t =>
    let st := ippStep ops compress Q a b Gv Hv t
    let o := ippCreateT ops compress Q d st.aP st.bP st.GP st.HP st.t
    ⟨o.a, o.b, st.L :: o.Ls, st.R :: o.Rs, st.u :: o.us, o.t⟩


section IppStepFields

variable {Point T : Type} [AddCommGroup Point] [Module Scalar Point]
variable (ops : TranscriptOps T) (compress : Point → Bytes) (Q : Point)
variable (a b : List Scalar) (Gv Hv : List Point) (t : T)

lemma ippStep_aP : (ippStep ops compress Q a b Gv Hv t).aP =
    List.zipWith (fun x y => x * (ippStep ops compress Q a b Gv Hv t).u +
      y * (ippStep ops compress Q a b Gv Hv t).u⁻¹)
      (a.take (a.length / 2)) (a.drop (a.length / 2)) := rfl

lemma ippStep_bP : (ippStep ops compress Q a b Gv Hv t).bP =
    List.zipWith (fun x y => x * (ippStep ops compress Q a b Gv Hv t).u⁻¹ +
      y * (ippStep ops compress Q a b Gv Hv t).u)
      (b.take (a.length / 2)) (b.drop (a.length / 2)) := rfl

lemma ippStep_GP : (ippStep ops compress Q a b Gv Hv t).GP =
    List.zipWith (fun X Y => (ippStep ops compress Q a b Gv Hv t).u⁻¹ • X +
      (ippStep ops compress Q a b Gv Hv t).u • Y)
      (Gv.take (a.length / 2)) (Gv.drop (a.length / 2)) := rfl

lemma ippStep_HP : (ippStep ops compress Q a b Gv Hv t).HP =
    List.zipWith (fun X Y => (ippStep ops compress Q a b Gv Hv t).u • X +
      (ippStep ops compress Q a b Gv Hv t).u⁻¹ • Y)
      (Hv.take (a.length / 2)) (Hv.drop (a.length / 2)) := rfl

lemma ippStep_L : (ippStep ops compress Q a b Gv Hv t).L =
    dotPS (a.take (a.length / 2)) (Gv.drop (a.length / 2)) +
      dotPS (b.drop (a.length / 2)) (Hv.take (a.length / 2)) +
      dotS (a.take (a.length / 2)) (b.drop (a.length / 2)) • Q := rfl

lemma ippStep_R : (ippStep ops compress Q a b Gv Hv t).R =
    dotPS (a.drop (a.length / 2)) (Gv.take (a.length / 2)) +
      dotPS (b.take (a.length / 2)) (Hv.drop (a.length / 2)) +
      dotS (a.drop (a.length / 2)) (b.take (a.length / 2)) • Q := rfl

lemma ippStep_u_isUnit (hu : ∀ label t, IsUnit ((ops.challenge_scalar label t).1)) :
    IsUnit (ippStep ops compress Q a b Gv Hv t).u := hu _ _

end IppStepFields

lemma ippCreateT_lengths {Point T : Type} [AddCommGroup Point] [Module Scalar Point]
    (ops : TranscriptOps T) (compress : Point → Bytes) (Q : Point) :
    ∀ (d : ℕ) (a b : List Scalar) (Gv Hv : List Point) (t : T),
      (ippCreateT ops compress Q d a b Gv Hv t).Ls.length = d ∧
      (ippCreateT ops compress Q d a b Gv Hv t).Rs.length = d ∧
      (ippCreateT ops compress Q d a b Gv Hv t).us.length = d := by
  intro d
  induction d with
  | zero => intro a b Gv Hv t; exact ⟨rfl, rfl, rfl⟩
  | succ d ih =>
    intro a b Gv Hv t
    rw [ippCreateT]
    obtain ⟨h1, h2, h3⟩ := ih _ _ _ _ _
    exact ⟨by simpa using h1, by simpa using h2, by simpa using h3⟩

lemma dotPS_comb_right {Point : Type} [AddCommGroup Point] [Module Scalar Point] (p q : Scalar)
    (c : List Scalar) (PL PR : List Point)
    (h1 : c.length = PL.length) (h2 : c.length = PR.length) :
    dotPS c (List.zipWith (fun X Y => p • X + q • Y) PL PR) =
      p • dotPS c PL + q • dotPS c PR := by
  induction c generalizing PL PR with
  | nil =>
    obtain rfl : PL = [] := List.eq_nil_of_length_eq_zero (by simpa using h1.symm)
    obtain rfl : PR = [] := List.eq_nil_of_length_eq_zero (by simpa using h2.symm)
    simp [dotPS]
  | cons x c ih =>
    cases PL with
    | nil => simp at h1
    | cons X PL =>
      cases PR with
      | nil => simp at h2
      | cons Y PR =>
        simp only [List.zipWith_cons_cons, dotPS_cons]
        rw [ih PL PR (by simpa using h1) (by simpa using h2)]
        module

lemma sVec_cons_reverse (u : Scalar) (us : List Scalar) :
    (sVec (u :: us)).reverse =
      ((sVec us).reverse.map fun x => u * x) ++
        ((sVec us).reverse.map fun x => u⁻¹ * x) := by
  rw [sVec, List.reverse_append, ← List.map_reverse, ← List.map_reverse]

set_option maxHeartbeats 1600000 in
lemma ippCreateT_identity {Point T : Type} [AddCommGroup Point] [Module Scalar Point]
    (ops : TranscriptOps T) (compress : Point → Bytes) (Q : Point)
    (hu : ∀ label t, IsUnit ((ops.challenge_scalar label t).1)) :
    ∀ (d : ℕ) (a b : List Scalar) (Gv Hv : List Point) (t : T),
      a.length = 2 ^ d → b.length = 2 ^ d → Gv.length = 2 ^ d → Hv.length = 2 ^ d →
      (ippCreateT ops compress Q d a b Gv Hv t).a •
          dotPS (sVec (ippCreateT ops compress Q d a b Gv Hv t).us) Gv +
        (ippCreateT ops compress Q d a b Gv Hv t).b •
          dotPS (sVec (ippCreateT ops compress Q d a b Gv Hv t).us).reverse Hv +
        ((ippCreateT ops compress Q d a b Gv Hv t).a *
          (ippCreateT ops compress Q d a b Gv Hv t).b) • Q =
      (dotPS a Gv + dotPS b Hv + dotS a b • Q) +
        dotPS ((ippCreateT ops compress Q d a b Gv Hv t).us.map fun u => u ^ 2)
          (ippCreateT ops compress Q d a b Gv Hv t).Ls +
        dotPS ((ippCreateT ops compress Q d a b Gv Hv t).us.map fun u => u⁻¹ ^ 2)
          (ippCreateT ops compress Q d a b Gv Hv t).Rs := by
  intro d
  induction d with
  | zero =>
    intro a b Gv Hv t ha hb hG hH
    match a, ha with
    | [x], _ =>
      match b, hb with
      | [y], _ =>
        match Gv, hG with
        | [G0], _ =>
          match Hv, hH with
          | [H0], _ =>
            simp only [ippCreateT, sVec, List.reverse_singleton, List.headD_cons,
              List.map_nil, dotS]
            simp [dotPS]
  | succ d ih =>
    intro a b Gv Hv t ha hb hG hH
    have hlen2 : (2 : ℕ) ^ (d + 1) = 2 ^ d + 2 ^ d := by rw [pow_succ]; omega
    rw [hlen2] at ha hb hG hH
    have hk : a.length / 2 = 2 ^ d := by omega
    rw [ippCreateT]
    set st := ippStep ops compress Q a b Gv Hv t with hstdef
    set o := ippCreateT ops compress Q d st.aP st.bP st.GP st.HP st.t with hodef
    have hul : IsUnit st.u := ippStep_u_isUnit ops compress Q a b Gv Hv t hu
    have hu1 : st.u * st.u⁻¹ = 1 := ZMod.mul_inv_of_unit _ hul
    have hu2 : st.u⁻¹ * st.u = 1 := ZMod.inv_mul_of_unit _ hul
    have haL : (a.take (a.length / 2)).length = 2 ^ d := by
      rw [List.length_take]; omega
    have haR : (a.drop (a.length / 2)).length = 2 ^ d := by
      rw [List.length_drop]; omega
    have hbL : (b.take (a.length / 2)).length = 2 ^ d := by
      rw [List.length_take]; omega
    have hbR : (b.drop (a.length / 2)).length = 2 ^ d := by
      rw [List.length_drop]; omega
    have hGL : (Gv.take (a.length / 2)).length = 2 ^ d := by
      rw [List.length_take]; omega
    have hGR : (Gv.drop (a.length / 2)).length = 2 ^ d := by
      rw [List.length_drop]; omega
    have hHL : (Hv.take (a.length / 2)).length = 2 ^ d := by
      rw [List.length_take]; omega
    have hHR : (Hv.drop (a.length / 2)).length = 2 ^ d := by
      rw [List.length_drop]; omega
    have hlaP : st.aP.length = 2 ^ d := by
      rw [hstdef, ippStep_aP, List.length_zipWith, haL, haR]; omega
    have hlbP : st.bP.length = 2 ^ d := by
      rw [hstdef, ippStep_bP, List.length_zipWith, hbL, hbR]; omega
    have hlGP : st.GP.length = 2 ^ d := by
      rw [hstdef, ippStep_GP, List.length_zipWith, hGL, hGR]; omega
    have hlHP : st.HP.length = 2 ^ d := by
      rw [hstdef, ippStep_HP, List.length_zipWith, hHL, hHR]; omega
    have hident := ih st.aP st.bP st.GP st.HP st.t hlaP hlbP hlGP hlHP
    rw [← hodef] at hident
    have hsl : (sVec o.us).length = 2 ^ d := by
      rw [sVec_length, (ippCreateT_lengths ops compress Q d st.aP st.bP st.GP
        st.HP st.t).2.2]
    have hGfull : dotPS (sVec (st.u :: o.us)) Gv = dotPS (sVec o.us) st.GP := by
      rw [sVec]
      conv_lhs => rw [← List.take_append_drop (a.length / 2) Gv]
      rw [dotPS_append _ _ _ _ (by rw [List.length_map, hsl, hGL]),
        dotPS_smul_left, dotPS_smul_left, hstdef, ippStep_GP,
        dotPS_comb_right _ _ _ _ _ (by rw [hsl, hGL]) (by rw [hsl, hGR])]
    have hHfull : dotPS (sVec (st.u :: o.us)).reverse Hv =
        dotPS (sVec o.us).reverse st.HP := by
      rw [sVec_cons_reverse]
      conv_lhs => rw [← List.take_append_drop (a.length / 2) Hv]
      rw [dotPS_append _ _ _ _
          (by rw [List.length_map, List.length_reverse, hsl, hHL]),
        dotPS_smul_left, dotPS_smul_left, hstdef, ippStep_HP,
        dotPS_comb_right _ _ _ _ _ (by rw [List.length_reverse, hsl, hHL])
          (by rw [List.length_reverse, hsl, hHR])]
    have horient_a : (fun x y => x * st.u + y * st.u⁻¹) =
        fun x y : Scalar => st.u * x + st.u⁻¹ * y := by
      funext x y; ring
    have horient_b : (fun x y => x * st.u⁻¹ + y * st.u) =
        fun x y : Scalar => st.u⁻¹ * x + st.u * y := by
      funext x y; ring
    have horient_bs : (fun x y => x * st.u⁻¹ + y * st.u) =
        fun x y : Scalar => st.u⁻¹ • x + st.u • y := by
      funext x y; simp only [smul_eq_mul]; ring
    have hexpG : dotPS st.aP st.GP =
        (st.u * st.u⁻¹) • dotPS (a.take (a.length / 2)) (Gv.take (a.length / 2)) +
        (st.u * st.u) • dotPS (a.take (a.length / 2)) (Gv.drop (a.length / 2)) +
        (st.u⁻¹ * st.u⁻¹) • dotPS (a.drop (a.length / 2)) (Gv.take (a.length / 2)) +
        (st.u⁻¹ * st.u) • dotPS (a.drop (a.length / 2)) (Gv.drop (a.length / 2)) := by
      rw [hstdef, ippStep_aP, ippStep_GP, horient_a]
      exact dotPS_fold_expand _ _ _ _ _ _ _ _ (by rw [haL, haR]) (by rw [haL, hGL])
        (by rw [haL, hGR])
    have hexpH : dotPS st.bP st.HP =
        (st.u⁻¹ * st.u) • dotPS (b.take (a.length / 2)) (Hv.take (a.length / 2)) +
        (st.u⁻¹ * st.u⁻¹) • dotPS (b.take (a.length / 2)) (Hv.drop (a.length / 2)) +
        (st.u * st.u) • dotPS (b.drop (a.length / 2)) (Hv.take (a.length / 2)) +
        (st.u * st.u⁻¹) • dotPS (b.drop (a.length / 2)) (Hv.drop (a.length / 2)) := by
      rw [hstdef, ippStep_bP, ippStep_HP, horient_b]
      exact dotPS_fold_expand _ _ _ _ _ _ _ _ (by rw [hbL, hbR]) (by rw [hbL, hHL])
        (by rw [hbL, hHR])
    have hexpS : dotS st.aP st.bP =
        (st.u * st.u⁻¹) * dotS (a.take (a.length / 2)) (b.take (a.length / 2)) +
        (st.u * st.u) * dotS (a.take (a.length / 2)) (b.drop (a.length / 2)) +
        (st.u⁻¹ * st.u⁻¹) * dotS (a.drop (a.length / 2)) (b.take (a.length / 2)) +
        (st.u⁻¹ * st.u) * dotS (a.drop (a.length / 2)) (b.drop (a.length / 2)) := by
      rw [dotS_eq_dotPS, hstdef, ippStep_aP, ippStep_bP, horient_a, horient_bs,
        dotS_eq_dotPS, dotS_eq_dotPS, dotS_eq_dotPS, dotS_eq_dotPS]
      have hfe := @dotPS_fold_expand Scalar _ _ st.u st.u⁻¹ st.u⁻¹ st.u
        (a.take (a.length / 2)) (a.drop (a.length / 2))
        (b.take (a.length / 2)) (b.drop (a.length / 2))
        (by rw [haL, haR]) (by rw [haL, hbL]) (by rw [haL, hbR])
      rw [hstdef] at hfe
      simpa [smul_eq_mul] using hfe
    have hPsplitG : dotPS a Gv =
        dotPS (a.take (a.length / 2)) (Gv.take (a.length / 2)) +
          dotPS (a.drop (a.length / 2)) (Gv.drop (a.length / 2)) :=
      dotPS_take_drop _ _ _ (by rw [haL, hGL])
    have hPsplitH : dotPS b Hv =
        dotPS (b.take (a.length / 2)) (Hv.take (a.length / 2)) +
          dotPS (b.drop (a.length / 2)) (Hv.drop (a.length / 2)) :=
      dotPS_take_drop _ _ _ (by rw [hbL, hHL])
    have hPsplitS : dotS a b =
        dotS (a.take (a.length / 2)) (b.take (a.length / 2)) +
          dotS (a.drop (a.length / 2)) (b.drop (a.length / 2)) := by
      rw [dotS_eq_dotPS, dotS_eq_dotPS, dotS_eq_dotPS]
      exact dotPS_take_drop _ _ _ (by rw [haL, hbL])
    have hfold : dotPS st.aP st.GP + dotPS st.bP st.HP + dotS st.aP st.bP • Q =
        (dotPS a Gv + dotPS b Hv + dotS a b • Q) +
          (st.u ^ 2) • st.L + (st.u⁻¹ ^ 2) • st.R := by
      rw [hexpG, hexpH, hexpS, hPsplitG, hPsplitH, hPsplitS, hu1, hu2,
        hstdef, ippStep_L, ippStep_R]
      simp only [one_smul]
      module
    dsimp only
    rw [hGfull, hHfull, hident, hfold]
    simp only [List.map_cons, dotPS_cons]
    abel

lemma ippCreateT_replay {Point T : Type} [AddCommGroup Point] [Module Scalar Point]
    (ops : TranscriptOps T) (compress : Point → Bytes) (Q : Point)
    (hnid : ∀ P : Point, compress P ≠ identityBytes) :
    ∀ (d : ℕ) (a b : List Scalar) (Gv Hv : List Point) (t : T),
      ippRounds ops
        (((ippCreateT ops compress Q d a b Gv Hv t).Ls.map compress).zip
          ((ippCreateT ops compress Q d a b Gv Hv t).Rs.map compress)) t =
        .ok ((ippCreateT ops compress Q d a b Gv Hv t).us,
          (ippCreateT ops compress Q d a b Gv Hv t).t) := by
  intro d
  induction d with
  | zero => intro a b Gv Hv t; rfl
  | succ d ih =>
    intro a b Gv Hv t
    rw [ippCreateT]
    dsimp only [ippStep]
    rw [List.map_cons, List.map_cons, List.zip_cons_cons, ippRounds]
    simp only [validateAndAppendPoint]
    rw [if_neg (hnid _)]
    dsimp only
    rw [if_neg (hnid _)]
    dsimp only
    rw [ih]

/-! ### C1: list-to-sum conversion utilities -/

lemma list_eq_range_map {α : Type} (d : α) (l : List α) (k : ℕ) (h : l.length = k) :
    l = (List.range k).map fun p => l.getD p d := by
  refine List.ext_getElem (by simp [h]) fun p h1 h2 => ?_
  rw [List.getElem_map, List.getElem_range, List.getD_eq_getElem _ _ (by omega)]

lemma zipWith_map_range {α β γ δ : Type} (F : β → γ → δ) (f : α → β) (g : α → γ)
    (r : List α) :
    List.zipWith F (r.map f) (r.map g) = r.map fun p => F (f p) (g p) := by
  induction r with
  | nil => rfl
  | cons x r ih => simp [ih]

lemma range_map_sum {M : Type} [AddCommMonoid M] (k : ℕ) (h : ℕ → M) :
    ((List.range k).map h).sum = ∑ p ∈ Finset.range k, h p := by
  induction k with
  | zero => rfl
  | succ k ih =>
    rw [List.range_succ, List.map_append, List.sum_append, Finset.sum_range_succ, ih]
    simp

lemma dotPS_range {Point : Type} [AddCommGroup Point] [Module Scalar Point]
    (k : ℕ) (f : ℕ → Scalar) (g : ℕ → Point) :
    dotPS ((List.range k).map f) ((List.range k).map g) =
      ∑ p ∈ Finset.range k, f p • g p := by
  rw [dotPS, zipWith_map_range, range_map_sum]

lemma dotS_range (k : ℕ) (f g : ℕ → Scalar) :
    dotS ((List.range k).map f) ((List.range k).map g) =
      ∑ p ∈ Finset.range k, f p * g p := by
  rw [dotS, zipWith_map_range, range_map_sum]

lemma flattenGens_eq_map {Point : Type} (f : ℕ → ℕ → Point) (n m : ℕ) (d : Point) :
    flattenGens f n m = (List.range (m * n)).map fun p => f (p / n) (p % n) := by
  rcases Nat.eq_zero_or_pos n with hn | hn
  · subst hn
    simp [flattenGens]
  refine List.ext_getElem ?_ fun p h1 h2 => ?_
  · rw [flattenGens, flatMap_range_length _ n _ (fun k => by simp), List.length_map,
      List.length_range]
  · have hp : p < m * n := by simpa using h2
    have hj : p / n < m := Nat.div_lt_of_lt_mul (by rw [Nat.mul_comm] at hp; exact hp)
    have hi : p % n < n := Nat.mod_lt _ hn
    have hsplit : p = (p / n) * n + p % n := by
      rw [Nat.mul_comm]
      exact (Nat.div_add_mod p n).symm
    rw [List.getElem_map, List.getElem_range]
    rw [← List.getD_eq_getElem (flattenGens f n m) d h1]
    conv_lhs => rw [flattenGens, hsplit]
    rw [flatMap_range_getD n d (p / n) _ (fun k => by simp) m (p % n) hj hi]
    rw [List.getD_eq_getElem _ _ (by simp [hi]), List.getElem_map, List.getElem_range]

lemma sum_range_add {M : Type} [AddCommMonoid M] (f : ℕ → M) (a : ℕ) :
    ∀ b : ℕ, ∑ p ∈ Finset.range (a + b), f p =
      (∑ p ∈ Finset.range a, f p) + ∑ i ∈ Finset.range b, f (a + i) := by
  intro b
  induction b with
  | zero => simp
  | succ b ih =>
    rw [show a + (b + 1) = (a + b) + 1 by ring, Finset.sum_range_succ, ih,
      Finset.sum_range_succ, add_assoc]

lemma sum_range_mul_split {M : Type} [AddCommMonoid M] (f : ℕ → M) (n : ℕ) :
    ∀ m : ℕ, ∑ p ∈ Finset.range (m * n), f p =
      ∑ j ∈ Finset.range m, ∑ i ∈ Finset.range n, f (j * n + i) := by
  intro m
  induction m with
  | zero => simp
  | succ m ih =>
    rw [Finset.sum_range_succ, ← ih, Nat.succ_mul, sum_range_add]

lemma sequenceOpt_map_some {α : Type} (l : List α) :
    sequenceOpt (l.map some) = some l := by
  induction l with
  | nil => rfl
  | cons x l ih => rw [List.map_cons, sequenceOpt, ih]; rfl

lemma optionalMSM_map_some {Point : Type} [AddCommGroup Point] [Module Scalar Point]
    (s : List Scalar) (p : List Point) :
    optionalMSM s (p.map some) = some (dotPS s p) := by
  rw [optionalMSM, sequenceOpt_map_some]
  refine congrArg some (congrArg List.sum ?_)
  induction s generalizing p with
  | nil => rfl
  | cons x s ih => cases p with
    | nil => rfl
    | cons q p => simpa [dotPS] using ih p

lemma dotPS_mul_right {Point : Type} [AddCommGroup Point] [Module Scalar Point]
    (c : Scalar) (a : List Scalar) (P : List Point) :
    dotPS (a.map fun x => x * c) P = c • dotPS a P := by
  have : (a.map fun x => x * c) = a.map fun x => c * x := by
    refine List.map_congr_left fun x _ => ?_
    ring
  rw [this, dotPS_smul_left]

lemma resizeMatrix_nil (m n : ℕ) :
    resizeMatrix [] m n = List.replicate m (List.replicate n (0 : Scalar)) := by
  simp [resizeMatrix, resizeRow]

lemma mapIdx_replicate {α β : Type} (x : α) :
    ∀ (k : ℕ) (f : ℕ → α → β),
      (List.replicate k x).mapIdx f = (List.range k).map fun j => f j x := by
  intro k
  induction k with
  | zero => intro f; rfl
  | succ k ih =>
    intro f
    rw [List.replicate_succ, List.mapIdx_cons, ih, List.range_succ_eq_map, List.map_cons,
      List.map_map]
    rfl

lemma accum_resize_nil (vals : List Scalar) (r : Scalar) (m n : ℕ) :
    accumulateMatrix (resizeMatrix [] m n) vals r m n =
      (List.range m).map fun j => (List.range n).map fun i =>
        vals.getD (j * n + i) 0 * r := by
  rw [resizeMatrix_nil, accumulateMatrix, mapIdx_replicate]
  refine List.map_congr_left fun j hj => ?_
  rw [if_pos (List.mem_range.mp hj), mapIdx_replicate]
  refine List.map_congr_left fun i hi => ?_
  rw [if_pos (List.mem_range.mp hi), zero_add]

lemma accum_resize_nil_flatten (vals : List Scalar) (r : Scalar) (m n : ℕ) :
    (accumulateMatrix (resizeMatrix [] m n) vals r m n).flatten =
      (List.range (m * n)).map fun p => vals.getD p 0 * r := by
  have h1 : (accumulateMatrix (resizeMatrix [] m n) vals r m n).flatten =
      flattenGens (fun j i => vals.getD (j * n + i) 0 * r) n m := by
    rw [accum_resize_nil, flattenGens]
    induction (List.range m) with
    | nil => rfl
    | cons a l ih => simp only [List.map_cons, List.flatten_cons, List.flatMap_cons, ih]
  rw [h1, flattenGens_eq_map _ _ _ 0]
  refine List.map_congr_left fun p hp => ?_
  rw [Nat.mul_comm (p / n) n, Nat.div_add_mod]

/-! ### C1: the bit decomposition sums back to the value -/

lemma mod_two_pow_succ (v n : ℕ) :
    v % 2 ^ (n + 1) = v % 2 ^ n + (if v.testBit n then 1 else 0) * 2 ^ n := by
  have hpos : 0 < 2 ^ n := Nat.two_pow_pos n
  have hrem : v % 2 ^ n < 2 ^ n := Nat.mod_lt _ hpos
  have hb2 : v / 2 ^ n % 2 ≤ 1 := by omega
  have hv : v = 2 ^ (n + 1) * (v / 2 ^ n / 2) + (2 ^ n * (v / 2 ^ n % 2) + v % 2 ^ n) := by
    calc v = 2 ^ n * (v / 2 ^ n) + v % 2 ^ n := (Nat.div_add_mod v (2 ^ n)).symm
    _ = 2 ^ n * (2 * (v / 2 ^ n / 2) + v / 2 ^ n % 2) + v % 2 ^ n := by
        conv_rhs => rw [Nat.div_add_mod]
    _ = 2 ^ (n + 1) * (v / 2 ^ n / 2) + (2 ^ n * (v / 2 ^ n % 2) + v % 2 ^ n) := by ring
  have hR : 2 ^ n * (v / 2 ^ n % 2) + v % 2 ^ n < 2 ^ (n + 1) := by
    have h1 : 2 ^ n * (v / 2 ^ n % 2) ≤ 2 ^ n * 1 := Nat.mul_le_mul_left _ hb2
    rw [pow_succ]
    omega
  have hmod : v % 2 ^ (n + 1) = 2 ^ n * (v / 2 ^ n % 2) + v % 2 ^ n := by
    conv_lhs => rw [hv]
    rw [Nat.mul_add_mod]
    exact Nat.mod_eq_of_lt hR
  rw [hmod, Nat.testBit_to_div_mod]
  rcases Nat.mod_two_eq_zero_or_one (v / 2 ^ n) with h | h <;> simp [h] <;> omega

lemma bit_sum_nat (v : ℕ) :
    ∀ n : ℕ, (∑ i ∈ Finset.range n, (if v.testBit i then 1 else 0) * 2 ^ i) = v % 2 ^ n := by
  intro n
  induction n with
  | zero => simp [Nat.mod_one]
  | succ n ih => rw [Finset.sum_range_succ, ih, mod_two_pow_succ]

lemma bit_sum_scalar (v n : ℕ) (hv : v < 2 ^ n) :
    (∑ i ∈ Finset.range n, (if v.testBit i then (1 : Scalar) else 0) * 2 ^ i) =
      (v : Scalar) := by
  have hnat := bit_sum_nat v n
  rw [Nat.mod_eq_of_lt hv] at hnat
  calc (∑ i ∈ Finset.range n, (if v.testBit i then (1 : Scalar) else 0) * 2 ^ i)
      = ((∑ i ∈ Finset.range n, (if v.testBit i then 1 else 0) * 2 ^ i : ℕ) : Scalar) := by
        push_cast
        refine Finset.sum_congr rfl fun i _ => ?_
        rcases Bool.eq_false_or_eq_true (v.testBit i) with h | h <;> simp [h]
    _ = (v : Scalar) := by rw [hnat]

/-! ### C1: the honest prover (`prove_multiple_with_rng` with trusted parties) -/

/-- The random choices the provers draw from the RNG during
`prove_multiple_with_rng`: each party's two blinding scalars for `A`/`S`,
the two blinding vectors `s_L`/`s_R` (flattened party-major over the
`(party, bit)` indices), and the two polynomial blinding scalars. -/
structure ProverRandomness where
  a_blinding : List Scalar
  s_blinding : List Scalar
  sL : List Scalar
  sR : List Scalar
  t1_blinding : List Scalar
  t2_blinding : List Scalar

/-- The full input of one `prove_multiple_with_rng` call: transcript
operations, point compression, generators, initial transcript, public
parameters, witness and drawn randomness. -/
structure ProveCtx (Point T : Type) where
  ops : TranscriptOps T
  compress : Point → Bytes
  bp : BulletproofGens Point
  pc : PedersenGens Point
  t0 : T
  values : List ℕ
  blindings : List Scalar
  n : ℕ
  rnd : ProverRandomness

section ProverDefs

variable {Point T : Type} [AddCommGroup Point] [Module Scalar Point]

/-- The aggregation size `m = values.len()`. -/
def ProveCtx.m (c : ProveCtx Point T) : ℕ := c.values.length

/-- The flattened `G` generator slice used by the parties (§3). -/
def ProveCtx.Gflat (c : ProveCtx Point T) : List Point := flattenGens c.bp.G c.n c.m

/-- The flattened `H` generator slice used by the parties (§3). -/
def ProveCtx.Hflat (c : ProveCtx Point T) : List Point := flattenGens c.bp.H c.n c.m

/-- Modelled from the spec: the aggregated bit vector `a_L` (§4.3 round 1:
party `j` commits the bits of `v_j`): entry `p = j·n + i` is bit `i` of
`v_j`. -/
def ProveCtx.aL (c : ProveCtx Point T) : List Scalar :=
  (List.range (c.n * c.m)).map fun p =>
    if (c.values.getD (p / c.n) 0).testBit (p % c.n) then (1 : Scalar) else 0

/-- `a_R = a_L − 1` componentwise (§4.3 round 1). -/
def ProveCtx.aR (c : ProveCtx Point T) : List Scalar := c.aL.map fun v => v - 1

/-- The aggregated bit commitment `A = Σ_j A_j` (§4.3 round 1:
`A_j = a̅_j·B̃ + ⟨a_L, G⟩ + ⟨a_R, H⟩`, summed by the dealer). -/
def ProveCtx.Apt (c : ProveCtx Point T) : Point :=
  c.rnd.a_blinding.sum • c.pc.B_blinding + dotPS c.aL c.Gflat + dotPS c.aR c.Hflat

/-- The aggregated blinding-vector commitment `S = Σ_j S_j` (§4.3 round 1:
`S_j = s̅_j·B̃ + ⟨s_L, G⟩ + ⟨s_R, H⟩`). -/
def ProveCtx.Spt (c : ProveCtx Point T) : Point :=
  c.rnd.s_blinding.sum • c.pc.B_blinding + dotPS c.rnd.sL c.Gflat + dotPS c.rnd.sR c.Hflat

/-- The value commitments `V_j = v_j·B + γ_j·B̃` (§3). -/
def ProveCtx.Vpts (c : ProveCtx Point T) : List Point :=
  (List.range c.m).map fun j =>
    ((c.values.getD j 0 : ℕ) : Scalar) • c.pc.B + c.blindings.getD j 0 • c.pc.B_blinding

/-- The compressed value commitments returned next to the proof. -/
def ProveCtx.vcBytes (c : ProveCtx Point T) : List Bytes := c.Vpts.map c.compress

/-- Transcript after the domain separation and the `V` appends. -/
def ProveCtx.tV (c : ProveCtx Point T) : T :=
  c.vcBytes.foldl (fun tt v => c.ops.append_point "V" v tt)
    (c.ops.rangeproof_domain_sep c.n c.m c.t0)

/-- Transcript after the validated `A` and `S` appends. -/
def ProveCtx.tS (c : ProveCtx Point T) : T :=
  c.ops.append_point "S" (c.compress c.Spt) (c.ops.append_point "A" (c.compress c.Apt) c.tV)

/-- The bit challenge `y`. -/
def ProveCtx.y (c : ProveCtx Point T) : Scalar := (c.ops.challenge_scalar "y" c.tS).1

/-- Transcript after drawing `y`. -/
def ProveCtx.tY (c : ProveCtx Point T) : T := (c.ops.challenge_scalar "y" c.tS).2

/-- The bit challenge `z`. -/
def ProveCtx.z (c : ProveCtx Point T) : Scalar := (c.ops.challenge_scalar "z" c.tY).1

/-- Transcript after drawing `z`. -/
def ProveCtx.tZ (c : ProveCtx Point T) : T := (c.ops.challenge_scalar "z" c.tY).2

/-- Constant coefficient of the left vector polynomial:
`l(X)_p = (a_L_p − z) + s_L_p·X` (§4.3 round 2). -/
def ProveCtx.l0 (c : ProveCtx Point T) : List Scalar := c.aL.map fun v => v - c.z

/-- Constant coefficient of the right vector polynomial:
`r(X)_p = y^p·(a_R_p + z + s_R_p·X) + z^{2+j}·2^i` at `p = j·n + i`
(§4.3 round 2). -/
def ProveCtx.r0 (c : ProveCtx Point T) : List Scalar :=
  (List.range (c.n * c.m)).map fun p =>
    c.y ^ p * (c.aR.getD p 0 + c.z) + c.z ^ (2 + p / c.n) * 2 ^ (p % c.n)

/-- Linear coefficient of the right vector polynomial. -/
def ProveCtx.r1 (c : ProveCtx Point T) : List Scalar :=
  (List.range (c.n * c.m)).map fun p => c.y ^ p * c.rnd.sR.getD p 0

/-- `t_1 = ⟨l_0, r_1⟩ + ⟨l_1, r_0⟩`, the linear coefficient of
`t(X) = ⟨l(X), r(X)⟩` (§4.3 round 2). -/
def ProveCtx.t1s (c : ProveCtx Point T) : Scalar := dotS c.l0 c.r1 + dotS c.rnd.sL c.r0

/-- `t_2 = ⟨l_1, r_1⟩`, the quadratic coefficient of `t(X)`. -/
def ProveCtx.t2s (c : ProveCtx Point T) : Scalar := dotS c.rnd.sL c.r1

/-- The aggregated commitment `T_1 = t_1·B + τ̃_1·B̃` (§4.3 round 2). -/
def ProveCtx.T1pt (c : ProveCtx Point T) : Point :=
  c.t1s • c.pc.B + c.rnd.t1_blinding.sum • c.pc.B_blinding

/-- The aggregated commitment `T_2 = t_2·B + τ̃_2·B̃` (§4.3 round 2). -/
def ProveCtx.T2pt (c : ProveCtx Point T) : Point :=
  c.t2s • c.pc.B + c.rnd.t2_blinding.sum • c.pc.B_blinding

/-- Transcript after the validated `T_1` and `T_2` appends. -/
def ProveCtx.tT (c : ProveCtx Point T) : T :=
  c.ops.append_point "T_2" (c.compress c.T2pt)
    (c.ops.append_point "T_1" (c.compress c.T1pt) c.tZ)

/-- The polynomial challenge `x`. -/
def ProveCtx.x (c : ProveCtx Point T) : Scalar := (c.ops.challenge_scalar "x" c.tT).1

/-- Transcript after drawing `x`. -/
def ProveCtx.tX (c : ProveCtx Point T) : T := (c.ops.challenge_scalar "x" c.tT).2

/-- The evaluated left vector `l(x) = l_0 + x·l_1` (§4.3 round 3). -/
def ProveCtx.lx (c : ProveCtx Point T) : List Scalar :=
  List.zipWith (fun u v => u + c.x * v) c.l0 c.rnd.sL

/-- The evaluated right vector `r(x) = r_0 + x·r_1` (§4.3 round 3). -/
def ProveCtx.rx (c : ProveCtx Point T) : List Scalar :=
  List.zipWith (fun u v => u + c.x * v) c.r0 c.r1

/-- `t_x = ⟨l(x), r(x)⟩` (§4.3 round 3). -/
def ProveCtx.t_x (c : ProveCtx Point T) : Scalar := dotS c.lx c.rx

/-- `t_x_blinding = Σ_j (z^{2+j}·γ_j + x·τ̃_1_j + x²·τ̃_2_j)`
(§4.3 round 3, summed by the dealer). -/
def ProveCtx.t_x_blinding (c : ProveCtx Point T) : Scalar :=
  c.rnd.t2_blinding.sum * (c.x * c.x) + c.rnd.t1_blinding.sum * c.x +
    c.z * c.z * ((List.range c.m).map fun j => c.z ^ j * c.blindings.getD j 0).sum

/-- `e_blinding = Σ_j (a̅_j + x·s̅_j)` (§4.3 round 3). -/
def ProveCtx.e_blinding (c : ProveCtx Point T) : Scalar :=
  c.rnd.a_blinding.sum + c.rnd.s_blinding.sum * c.x

/-- Transcript after the three final scalar appends. -/
def ProveCtx.tE (c : ProveCtx Point T) : T :=
  c.ops.append_scalar "e_blinding" c.e_blinding
    (c.ops.append_scalar "t_x_blinding" c.t_x_blinding
      (c.ops.append_scalar "t_x" c.t_x c.tX))

/-- The aggregation challenge `w`. -/
def ProveCtx.w (c : ProveCtx Point T) : Scalar := (c.ops.challenge_scalar "w" c.tE).1

/-- Transcript after drawing `w`. -/
def ProveCtx.tW (c : ProveCtx Point T) : T := (c.ops.challenge_scalar "w" c.tE).2

/-- `Q = w·B`, the basis the inner product is committed against. -/
def ProveCtx.Qpt (c : ProveCtx Point T) : Point := c.w • c.pc.B

/-- The scaled bases `H'_p = y^{−p}·H_p` the inner-product proof is created
over (§4.2). -/
def ProveCtx.Hp (c : ProveCtx Point T) : List Point :=
  List.zipWith (fun sc X => sc • X)
    ((List.range (c.n * c.m)).map fun p => (c.y⁻¹) ^ p) c.Hflat

/-- The inner-product proof creation run (`lg(n·m)` halving rounds). -/
def ProveCtx.ipp (c : ProveCtx Point T) : IppCreateOut Point T :=
  ippCreateT c.ops c.compress c.Qpt (Nat.log2 (c.n * c.m)) c.lx c.rx c.Gflat c.Hp c.tW

/-- The assembled `RangeProof`. -/
def ProveCtx.proof (c : ProveCtx Point T) : RangeProof :=
  ⟨c.compress c.Apt, c.compress c.Spt, c.compress c.T1pt, c.compress c.T2pt,
    c.t_x, c.t_x_blinding, c.e_blinding,
    ⟨c.ipp.Ls.map c.compress, c.ipp.Rs.map c.compress, c.ipp.a, c.ipp.b⟩⟩

/-- Modelled from the spec: `RangeProof::prove_multiple_with_rng`
(`src/range_proof/mod.rs` lines 259-313) together with the Party and Dealer
rounds it drives (§4.3; party.rs, dealer.rs are not under src/), flattened
over the `(party, bit)` indices.  In source order: the blinding-count check,
the `Dealer::new` parameter checks, then the transcript interaction of the
three rounds — domain separation, `V` appends, validated `A`/`S` appends
(identity compressions are rejected as in `validate_and_append_point`),
challenges `y`,`z`, validated `T_1`/`T_2` appends, challenge `x` with the
malicious-dealer check `x = 0`, the three scalar appends, challenge `w`, and
the inner-product proof creation over `G` and `H'` against `Q = w·B`.
The transcript state is pure, so the returned value equals the straight-line
composition of the `ProveCtx` quantities guarded by the checks. -/
def proveMultiple (c : ProveCtx Point T) :
    Except ProofError (RangeProof × List Bytes × T) :=
  if c.values.length ≠ c.blindings.length then .error .WrongNumBlindingFactors
  else if ¬(c.n = 8 ∨ c.n = 16 ∨ c.n = 32 ∨ c.n = 64) then .error .InvalidBitsize
  else if ¬(0 < c.m ∧ c.m = 2 ^ Nat.log2 c.m) then .error .InvalidAggregationSize
  else if c.bp.gens_capacity < c.n then .error .InvalidGeneratorsLength
  else if c.bp.party_capacity < c.m then .error .InvalidGeneratorsLength
  else if c.compress c.Apt = identityBytes then .error .MaliciousDealer
  else if c.compress c.Spt = identityBytes then .error .MaliciousDealer
  else if c.compress c.T1pt = identityBytes then .error .MaliciousDealer
  else if c.compress c.T2pt = identityBytes then .error .MaliciousDealer
  else if c.x = 0 then .error .MaliciousDealer
  else .ok (c.proof, c.vcBytes, c.ipp.t)

end ProverDefs

section ProverReplay

variable {Point T : Type} [AddCommGroup Point] [Module Scalar Point]

/-- Transcript after the verifier-side `ipp_a`/`ipp_b` appends. -/
def ProveCtx.tB (c : ProveCtx Point T) : T :=
  c.ops.append_scalar "ipp_b" c.ipp.b (c.ops.append_scalar "ipp_a" c.ipp.a c.ipp.t)

/-- The batching challenge `c` the verifier draws after the replay. -/
def ProveCtx.cch (c : ProveCtx Point T) : Scalar := (c.ops.challenge_scalar "c" c.tB).1

/-- Final replayed transcript state. -/
def ProveCtx.tC (c : ProveCtx Point T) : T := (c.ops.challenge_scalar "c" c.tB).2

/-- The challenges the verifier recovers when replaying an honest proof. -/
def ProveCtx.out (c : ProveCtx Point T) : ReplayOut :=
  ⟨c.y, c.z, c.x, c.w, c.ipp.us, c.cch⟩

lemma log2_two_pow : ∀ k : ℕ, Nat.log2 (2 ^ k) = k := by
  intro k
  induction k with
  | zero => simp [Nat.log2]
  | succ k ih =>
    rw [Nat.log2]
    have h2 : 2 ^ (k + 1) ≥ 2 := by
      calc (2 : ℕ) = 2 ^ 1 := rfl
      _ ≤ 2 ^ (k + 1) := Nat.pow_le_pow_right (by omega) (by omega)
    rw [if_pos h2, pow_succ, Nat.mul_div_cancel _ (by omega), ih]

lemma proveMultiple_replay (c : ProveCtx Point T)
    (hnid : ∀ P : Point, c.compress P ≠ identityBytes)
    (hnm : c.n * c.m = 2 ^ Nat.log2 (c.n * c.m)) :
    replayTranscript c.ops c.proof c.vcBytes c.n c.m c.t0 = .ok (c.out, c.tC) := by
  have hL : c.proof.ipp_proof.L_vec.length = Nat.log2 (c.n * c.m) := by
    rw [ProveCtx.proof]
    exact (List.length_map _ _).trans (ippCreateT_lengths _ _ _ _ _ _ _ _ _).1
  rw [replayTranscript]
  simp only [ProveCtx.out, ProveCtx.cch, ProveCtx.tC, ProveCtx.tB, ProveCtx.proof,
    ProveCtx.y, ProveCtx.z, ProveCtx.x, ProveCtx.w, ProveCtx.ipp, ProveCtx.tW,
    ProveCtx.tE, ProveCtx.tX, ProveCtx.tT, ProveCtx.tZ, ProveCtx.tY, ProveCtx.tS,
    ProveCtx.tV, validateAndAppendPoint] at hL ⊢
  rw [if_neg (hnid _)]
  dsimp only
  rw [if_neg (hnid _)]
  dsimp only
  rw [if_neg (hnid _)]
  dsimp only
  rw [if_neg (hnid _)]
  dsimp only
  rw [hL, if_neg (not_not_intro hnm)]
  rw [ippCreateT_replay c.ops c.compress _ hnid]

end ProverReplay

/-! ### C1: the constant term of `t(X)` -/

lemma sum_range_mul_split2 {M : Type} [AddCommMonoid M] (f : ℕ → M) (n m : ℕ) :
    ∑ p ∈ Finset.range (n * m), f p =
      ∑ j ∈ Finset.range m, ∑ i ∈ Finset.range n, f (j * n + i) := by
  rw [Nat.mul_comm]
  exact sum_range_mul_split f n m

lemma flat_div_mod (n j i : ℕ) (hn : 0 < n) (hi : i < n) :
    (j * n + i) / n = j ∧ (j * n + i) % n = i := by
  constructor
  · rw [Nat.mul_comm j n, Nat.mul_add_div hn, Nat.div_eq_of_lt hi]
    omega
  · rw [Nat.mul_comm j n, Nat.mul_add_mod, Nat.mod_eq_of_lt hi]


lemma t0_identity {Point T : Type} [AddCommGroup Point] [Module Scalar Point]
    (c : ProveCtx Point T) (hn0 : 0 < c.n)
    (hv : ∀ v ∈ c.values, v < 2 ^ c.n) :
    dotS c.l0 c.r0 =
      c.z * c.z * (∑ j ∈ Finset.range c.m, c.z ^ j * ((c.values.getD j 0 : ℕ) : Scalar)) +
        delta c.n c.m c.y c.z := by
  have haR : ∀ p < c.n * c.m, c.aR.getD p 0 =
      (if (c.values.getD (p / c.n) 0).testBit (p % c.n) then (1 : Scalar) else 0) - 1 := by
    intro p hp
    rw [ProveCtx.aR, ProveCtx.aL,
      List.getD_eq_getElem _ _ (by simp [hp]), List.getElem_map, List.getElem_map,
      List.getElem_range]
  have hl0 : c.l0 = (List.range (c.n * c.m)).map fun p =>
      (if (c.values.getD (p / c.n) 0).testBit (p % c.n) then (1 : Scalar) else 0) - c.z := by
    rw [ProveCtx.l0, ProveCtx.aL, List.map_map]
    rfl
  have hr0 : c.r0 = (List.range (c.n * c.m)).map fun p =>
      c.y ^ p * (((if (c.values.getD (p / c.n) 0).testBit (p % c.n) then (1 : Scalar)
        else 0) - 1) + c.z) + c.z ^ (2 + p / c.n) * 2 ^ (p % c.n) := by
    rw [ProveCtx.r0]
    refine List.map_congr_left fun p hp => ?_
    rw [haR p (List.mem_range.mp hp)]
  rw [hl0, hr0, dotS_range]
  have hpoint : ∀ p ∈ Finset.range (c.n * c.m),
      ((if (c.values.getD (p / c.n) 0).testBit (p % c.n) then (1 : Scalar) else 0) - c.z) *
        (c.y ^ p * (((if (c.values.getD (p / c.n) 0).testBit (p % c.n) then (1 : Scalar)
          else 0) - 1) + c.z) + c.z ^ (2 + p / c.n) * 2 ^ (p % c.n)) =
      (c.z - c.z * c.z) * c.y ^ p +
        (if (c.values.getD (p / c.n) 0).testBit (p % c.n) then (1 : Scalar) else 0) *
          (c.z ^ (2 + p / c.n) * 2 ^ (p % c.n)) -
        c.z ^ (3 + p / c.n) * 2 ^ (p % c.n) := by
    intro p _
    by_cases hX : (c.values.getD (p / c.n) 0).testBit (p % c.n)
    · rw [if_pos hX]; ring
    · rw [if_neg hX]; ring
  rw [Finset.sum_congr rfl hpoint, Finset.sum_sub_distrib, Finset.sum_add_distrib,
    ← Finset.mul_sum]
  have hS2 : ∑ p ∈ Finset.range (c.n * c.m),
      (if (c.values.getD (p / c.n) 0).testBit (p % c.n) then (1 : Scalar) else 0) *
        (c.z ^ (2 + p / c.n) * 2 ^ (p % c.n)) =
      ∑ j ∈ Finset.range c.m, c.z ^ (2 + j) * ((c.values.getD j 0 : ℕ) : Scalar) := by
    rw [sum_range_mul_split2]
    refine Finset.sum_congr rfl fun j _ => ?_
    have hinner : ∀ i ∈ Finset.range c.n,
        (if (c.values.getD ((j * c.n + i) / c.n) 0).testBit ((j * c.n + i) % c.n)
          then (1 : Scalar) else 0) *
          (c.z ^ (2 + (j * c.n + i) / c.n) * 2 ^ ((j * c.n + i) % c.n)) =
        c.z ^ (2 + j) *
          ((if (c.values.getD j 0).testBit i then (1 : Scalar) else 0) * 2 ^ i) := by
      intro i hi
      obtain ⟨hd, hm⟩ := flat_div_mod c.n j i hn0 (Finset.mem_range.mp hi)
      rw [hd, hm]
      ring
    rw [Finset.sum_congr rfl hinner, ← Finset.mul_sum]
    by_cases hjm : j < c.values.length
    · have hmem : c.values.getD j 0 ∈ c.values := by
        rw [List.getD_eq_getElem _ _ hjm]
        exact List.getElem_mem _
      rw [bit_sum_scalar _ _ (hv _ hmem)]
    · rw [List.getD_eq_default _ _ (by omega)]
      have : ∀ i ∈ Finset.range c.n,
          (if Nat.testBit 0 i then (1 : Scalar) else 0) * 2 ^ i = 0 := by
        intro i _
        simp [Nat.testBit]
      rw [Finset.sum_congr rfl this]
      simp
  have hS3 : ∑ p ∈ Finset.range (c.n * c.m), c.z ^ (3 + p / c.n) * 2 ^ (p % c.n) =
      ∑ j ∈ Finset.range c.m, c.z ^ (j + 3) * ∑ i ∈ Finset.range c.n, (2 : Scalar) ^ i := by
    rw [sum_range_mul_split2]
    refine Finset.sum_congr rfl fun j _ => ?_
    have hinner : ∀ i ∈ Finset.range c.n,
        c.z ^ (3 + (j * c.n + i) / c.n) * 2 ^ ((j * c.n + i) % c.n) =
          c.z ^ (j + 3) * 2 ^ i := by
      intro i hi
      obtain ⟨hd, hm⟩ := flat_div_mod c.n j i hn0 (Finset.mem_range.mp hi)
      rw [hd, hm, Nat.add_comm 3 j]
    rw [Finset.sum_congr rfl hinner, ← Finset.mul_sum]
  rw [hS2, hS3, delta_as_sum]
  have hfold : ∑ j ∈ Finset.range c.m, c.z ^ (2 + j) * ((c.values.getD j 0 : ℕ) : Scalar) =
      c.z * c.z * ∑ j ∈ Finset.range c.m, c.z ^ j * ((c.values.getD j 0 : ℕ) : Scalar) := by
    rw [Finset.mul_sum]
    refine Finset.sum_congr rfl fun j _ => ?_
    ring
  rw [hfold]
  ring

section ProverAlgebra

variable {Point T : Type} [AddCommGroup Point] [Module Scalar Point]

lemma ProveCtx.l0_length (c : ProveCtx Point T) : c.l0.length = c.n * c.m := by
  rw [ProveCtx.l0, ProveCtx.aL]
  simp

lemma ProveCtx.r0_length (c : ProveCtx Point T) : c.r0.length = c.n * c.m := by
  rw [ProveCtx.r0]
  simp

lemma ProveCtx.r1_length (c : ProveCtx Point T) : c.r1.length = c.n * c.m := by
  rw [ProveCtx.r1]
  simp

lemma t_x_eval (c : ProveCtx Point T) (hsL : c.rnd.sL.length = c.n * c.m) :
    c.t_x = dotS c.l0 c.r0 + c.x * c.t1s + c.x * c.x * c.t2s := by
  have hexp := @dotPS_fold_expand Scalar _ _ 1 c.x 1 c.x c.l0 c.rnd.sL c.r0 c.r1
    (c.l0_length.trans hsL.symm) (c.l0_length.trans c.r0_length.symm)
    (c.l0_length.trans c.r1_length.symm)
  simp only [smul_eq_mul, one_mul, mul_one] at hexp
  rw [ProveCtx.t_x, ProveCtx.lx, ProveCtx.rx, ProveCtx.t1s, ProveCtx.t2s, dotS_eq_dotPS,
    dotS_eq_dotPS, dotS_eq_dotPS, dotS_eq_dotPS, dotS_eq_dotPS, hexp]
  ring

lemma cpart_identity (c : ProveCtx Point T) (hn0 : 0 < c.n)
    (hv : ∀ v ∈ c.values, v < 2 ^ c.n) (hsL : c.rnd.sL.length = c.n * c.m) :
    c.x • c.T1pt + (c.x * c.x) • c.T2pt +
      dotPS ((List.range c.m).map fun j => c.z * c.z * c.z ^ j) c.Vpts =
    (c.t_x - delta c.n c.m c.y c.z) • c.pc.B + c.t_x_blinding • c.pc.B_blinding := by
  have htx := t_x_eval c hsL
  have ht0 := t0_identity c hn0 hv
  have hB : c.x * c.t1s + c.x * c.x * c.t2s +
      c.z * c.z * (∑ j ∈ Finset.range c.m, c.z ^ j * ((c.values.getD j 0 : ℕ) : Scalar)) =
      c.t_x - delta c.n c.m c.y c.z := by
    linear_combination -htx - ht0
  have hBb : c.x * c.rnd.t1_blinding.sum + c.x * c.x * c.rnd.t2_blinding.sum +
      c.z * c.z * (∑ j ∈ Finset.range c.m, c.z ^ j * c.blindings.getD j 0) =
      c.t_x_blinding := by
    rw [ProveCtx.t_x_blinding, range_map_sum]
    ring
  have hV : dotPS ((List.range c.m).map fun j => c.z * c.z * c.z ^ j) c.Vpts =
      (c.z * c.z * ∑ j ∈ Finset.range c.m, c.z ^ j *
        ((c.values.getD j 0 : ℕ) : Scalar)) • c.pc.B +
      (c.z * c.z * ∑ j ∈ Finset.range c.m, c.z ^ j * c.blindings.getD j 0) •
        c.pc.B_blinding := by
    rw [ProveCtx.Vpts, dotPS_range]
    calc ∑ j ∈ Finset.range c.m, (c.z * c.z * c.z ^ j) •
          (((c.values.getD j 0 : ℕ) : Scalar) • c.pc.B +
            c.blindings.getD j 0 • c.pc.B_blinding)
        = ∑ j ∈ Finset.range c.m,
            ((c.z * c.z * (c.z ^ j * ((c.values.getD j 0 : ℕ) : Scalar))) • c.pc.B +
              (c.z * c.z * (c.z ^ j * c.blindings.getD j 0)) • c.pc.B_blinding) := by
          refine Finset.sum_congr rfl fun j _ => ?_
          module
      _ = _ := by
          rw [Finset.sum_add_distrib, ← Finset.sum_smul, ← Finset.sum_smul,
            ← Finset.mul_sum, ← Finset.mul_sum]
  rw [hV, ProveCtx.T1pt, ProveCtx.T2pt, ← hB, ← hBb]
  module

end ProverAlgebra

section ProverMainIdentity

variable {Point T : Type} [AddCommGroup Point] [Module Scalar Point]

lemma ProveCtx.aL_length (c : ProveCtx Point T) : c.aL.length = c.n * c.m := by
  rw [ProveCtx.aL]
  simp

lemma ProveCtx.aR_length (c : ProveCtx Point T) : c.aR.length = c.n * c.m := by
  rw [ProveCtx.aR, List.length_map, c.aL_length]

lemma ProveCtx.lx_length (c : ProveCtx Point T) (hsL : c.rnd.sL.length = c.n * c.m) :
    c.lx.length = c.n * c.m := by
  rw [ProveCtx.lx, List.length_zipWith, c.l0_length, hsL, Nat.min_self]

lemma ProveCtx.rx_length (c : ProveCtx Point T) : c.rx.length = c.n * c.m := by
  rw [ProveCtx.rx, List.length_zipWith, c.r0_length, c.r1_length, Nat.min_self]

lemma ProveCtx.Gflat_length (c : ProveCtx Point T) : c.Gflat.length = c.n * c.m := by
  rw [ProveCtx.Gflat, flattenGens, flatMap_range_length _ c.n _ (fun k => by simp),
    Nat.mul_comm]

lemma ProveCtx.Hflat_length (c : ProveCtx Point T) : c.Hflat.length = c.n * c.m := by
  rw [ProveCtx.Hflat, flattenGens, flatMap_range_length _ c.n _ (fun k => by simp),
    Nat.mul_comm]

lemma ProveCtx.Hp_length (c : ProveCtx Point T) : c.Hp.length = c.n * c.m := by
  rw [ProveCtx.Hp, List.length_zipWith, List.length_map, List.length_range,
    c.Hflat_length, Nat.min_self]

lemma ProveCtx.us_length (c : ProveCtx Point T) :
    c.ipp.us.length = Nat.log2 (c.n * c.m) :=
  (ippCreateT_lengths _ _ _ _ _ _ _ _ _).2.2

lemma ProveCtx.sVec_us_length (c : ProveCtx Point T)
    (hnm : c.n * c.m = 2 ^ Nat.log2 (c.n * c.m)) :
    (sVec c.ipp.us).length = c.n * c.m := by
  rw [sVec_length, c.us_length, ← hnm]

lemma ProveCtx.Gflat_eq (c : ProveCtx Point T) :
    c.Gflat = (List.range (c.n * c.m)).map fun p => c.bp.G (p / c.n) (p % c.n) := by
  rw [ProveCtx.Gflat, flattenGens_eq_map _ _ _ c.pc.B, Nat.mul_comm c.m c.n]

lemma ProveCtx.Hflat_eq (c : ProveCtx Point T) :
    c.Hflat = (List.range (c.n * c.m)).map fun p => c.bp.H (p / c.n) (p % c.n) := by
  rw [ProveCtx.Hflat, flattenGens_eq_map _ _ _ c.pc.B, Nat.mul_comm c.m c.n]

lemma ProveCtx.aL_eq_getD (c : ProveCtx Point T) :
    c.aL = (List.range (c.n * c.m)).map fun p => c.aL.getD p 0 :=
  list_eq_range_map 0 _ _ c.aL_length

lemma ProveCtx.aR_eq_getD (c : ProveCtx Point T) :
    c.aR = (List.range (c.n * c.m)).map fun p => c.aL.getD p 0 - 1 := by
  have h := list_eq_range_map 0 c.aR (c.n * c.m) c.aR_length
  rw [h]
  refine List.map_congr_left fun p hp => ?_
  have hp2 : p < c.n * c.m := List.mem_range.mp hp
  rw [ProveCtx.aR, List.getD_eq_getElem _ _ (by rw [List.length_map, c.aL_length]; exact hp2),
    List.getElem_map, List.getD_eq_getElem _ _ (by rw [c.aL_length]; exact hp2)]

lemma ProveCtx.l0_eq (c : ProveCtx Point T) :
    c.l0 = (List.range (c.n * c.m)).map fun p => c.aL.getD p 0 - c.z := by
  rw [ProveCtx.l0]
  conv_lhs => rw [c.aL_eq_getD]
  rw [List.map_map]
  rfl

lemma ProveCtx.lx_eq (c : ProveCtx Point T) (hsL : c.rnd.sL.length = c.n * c.m) :
    c.lx = (List.range (c.n * c.m)).map fun p =>
      (c.aL.getD p 0 - c.z) + c.x * c.rnd.sL.getD p 0 := by
  rw [ProveCtx.lx, c.l0_eq]
  conv_lhs => rw [list_eq_range_map 0 c.rnd.sL _ hsL]
  rw [zipWith_map_range]

lemma ProveCtx.r0_eq (c : ProveCtx Point T) :
    c.r0 = (List.range (c.n * c.m)).map fun p =>
      c.y ^ p * (c.aR.getD p 0 + c.z) + c.z ^ (2 + p / c.n) * 2 ^ (p % c.n) :=
  rfl

lemma ProveCtx.rx_eq (c : ProveCtx Point T) :
    c.rx = (List.range (c.n * c.m)).map fun p =>
      (c.y ^ p * (c.aR.getD p 0 + c.z) + c.z ^ (2 + p / c.n) * 2 ^ (p % c.n)) +
        c.x * (c.y ^ p * c.rnd.sR.getD p 0) := by
  rw [ProveCtx.rx, ProveCtx.r0, ProveCtx.r1, zipWith_map_range]

lemma gside_identity (c : ProveCtx Point T)
    (hnm : c.n * c.m = 2 ^ Nat.log2 (c.n * c.m))
    (hsL : c.rnd.sL.length = c.n * c.m) :
    dotPS ((sVec c.ipp.us).map fun s_i => -c.z - c.ipp.a * s_i) c.Gflat =
      dotPS c.lx c.Gflat - c.ipp.a • dotPS (sVec c.ipp.us) c.Gflat -
        dotPS c.aL c.Gflat - c.x • dotPS c.rnd.sL c.Gflat := by
  have hsv := list_eq_range_map 0 (sVec c.ipp.us) _ (c.sVec_us_length hnm)
  have h1 : dotPS ((sVec c.ipp.us).map fun s_i => -c.z - c.ipp.a * s_i) c.Gflat =
      ∑ p ∈ Finset.range (c.n * c.m),
        (-c.z - c.ipp.a * (sVec c.ipp.us).getD p 0) • c.bp.G (p / c.n) (p % c.n) := by
    conv_lhs => rw [hsv, List.map_map, c.Gflat_eq]
    rw [dotPS_range]
    rfl
  have h2 : dotPS c.lx c.Gflat = ∑ p ∈ Finset.range (c.n * c.m),
      ((c.aL.getD p 0 - c.z) + c.x * c.rnd.sL.getD p 0) • c.bp.G (p / c.n) (p % c.n) := by
    rw [c.lx_eq hsL, c.Gflat_eq, dotPS_range]
  have h3 : c.ipp.a • dotPS (sVec c.ipp.us) c.Gflat = ∑ p ∈ Finset.range (c.n * c.m),
      (c.ipp.a * (sVec c.ipp.us).getD p 0) • c.bp.G (p / c.n) (p % c.n) := by
    conv_lhs => rw [hsv, c.Gflat_eq]
    rw [dotPS_range, Finset.smul_sum]
    exact Finset.sum_congr rfl fun p _ => smul_smul _ _ _
  have h4 : dotPS c.aL c.Gflat = ∑ p ∈ Finset.range (c.n * c.m),
      c.aL.getD p 0 • c.bp.G (p / c.n) (p % c.n) := by
    conv_lhs => rw [c.aL_eq_getD, c.Gflat_eq]
    rw [dotPS_range]
  have h5 : c.x • dotPS c.rnd.sL c.Gflat = ∑ p ∈ Finset.range (c.n * c.m),
      (c.x * c.rnd.sL.getD p 0) • c.bp.G (p / c.n) (p % c.n) := by
    conv_lhs => rw [list_eq_range_map 0 c.rnd.sL _ hsL, c.Gflat_eq]
    rw [dotPS_range, Finset.smul_sum]
    exact Finset.sum_congr rfl fun p _ => smul_smul _ _ _
  rw [h1, h2, h3, h4, h5, ← Finset.sum_sub_distrib, ← Finset.sum_sub_distrib,
    ← Finset.sum_sub_distrib]
  refine Finset.sum_congr rfl fun p _ => ?_
  module

lemma zip_map_range {α β γ : Type} (f : α → β) (g : α → γ) (r : List α) :
    (r.map f).zip (r.map g) = r.map fun p => (f p, g p) :=
  zipWith_map_range Prod.mk f g r

lemma ProveCtx.Hp_eq (c : ProveCtx Point T) :
    c.Hp = (List.range (c.n * c.m)).map fun p =>
      (c.y⁻¹) ^ p • c.bp.H (p / c.n) (p % c.n) := by
  rw [ProveCtx.Hp, c.Hflat_eq, zipWith_map_range]

lemma ProveCtx.concat_eq (c : ProveCtx Point T) :
    ((List.range c.m).flatMap fun j =>
      ((List.range c.n).map fun i => (2 : Scalar) ^ i).map fun e2 => e2 * c.z ^ j) =
    (List.range (c.n * c.m)).map fun p => 2 ^ (p % c.n) * c.z ^ (p / c.n) := by
  have h1 : ((List.range c.m).flatMap fun j =>
      ((List.range c.n).map fun i => (2 : Scalar) ^ i).map fun e2 => e2 * c.z ^ j) =
      flattenGens (fun j i => (2 : Scalar) ^ i * c.z ^ j) c.n c.m := by
    rw [flattenGens]
    refine congrArg _ (funext fun j => ?_)
    rw [List.map_map]
    rfl
  rw [h1, flattenGens_eq_map _ _ _ 0, Nat.mul_comm c.m c.n]

lemma hside_identity (c : ProveCtx Point T)
    (hu : ∀ label t, IsUnit ((c.ops.challenge_scalar label t).1))
    (hnm : c.n * c.m = 2 ^ Nat.log2 (c.n * c.m))
    (hsR : c.rnd.sR.length = c.n * c.m) :
    dotPS ((((sVec c.ipp.us).reverse.zip
        ((List.range (c.n * c.m)).map fun i => (c.y⁻¹) ^ i)).zip
        ((List.range c.m).flatMap fun j =>
          ((List.range c.n).map fun i => (2 : Scalar) ^ i).map fun e2 =>
            e2 * c.z ^ j)).map fun p =>
        c.z + p.1.2 * (c.z * c.z * p.2 - c.ipp.b * p.1.1)) c.Hflat =
      dotPS c.rx c.Hp - c.ipp.b • dotPS (sVec c.ipp.us).reverse c.Hp -
        dotPS c.aR c.Hflat - c.x • dotPS c.rnd.sR c.Hflat := by
  have hyu : IsUnit c.y := by
    rw [ProveCtx.y]
    exact hu _ _
  have hrevlen : (sVec c.ipp.us).reverse.length = c.n * c.m := by
    rw [List.length_reverse]
    exact c.sVec_us_length hnm
  have hsrev := list_eq_range_map 0 (sVec c.ipp.us).reverse _ hrevlen
  have h1 : dotPS ((((sVec c.ipp.us).reverse.zip
      ((List.range (c.n * c.m)).map fun i => (c.y⁻¹) ^ i)).zip
      ((List.range c.m).flatMap fun j =>
        ((List.range c.n).map fun i => (2 : Scalar) ^ i).map fun e2 =>
          e2 * c.z ^ j)).map fun p =>
      c.z + p.1.2 * (c.z * c.z * p.2 - c.ipp.b * p.1.1)) c.Hflat =
    ∑ p ∈ Finset.range (c.n * c.m),
      (c.z + (c.y⁻¹) ^ p * (c.z * c.z * (2 ^ (p % c.n) * c.z ^ (p / c.n)) -
        c.ipp.b * (sVec c.ipp.us).reverse.getD p 0)) •
          c.bp.H (p / c.n) (p % c.n) := by
    conv_lhs => rw [c.concat_eq, hsrev, zip_map_range, zip_map_range, List.map_map,
      c.Hflat_eq]
    rw [dotPS_range]
    rfl
  have h2 : dotPS c.rx c.Hp = ∑ p ∈ Finset.range (c.n * c.m),
      (((c.y ^ p * (c.aR.getD p 0 + c.z) + c.z ^ (2 + p / c.n) * 2 ^ (p % c.n)) +
        c.x * (c.y ^ p * c.rnd.sR.getD p 0)) * (c.y⁻¹) ^ p) •
        c.bp.H (p / c.n) (p % c.n) := by
    rw [c.rx_eq, c.Hp_eq, dotPS_range]
    refine Finset.sum_congr rfl fun p _ => ?_
    module
  have h3 : c.ipp.b • dotPS (sVec c.ipp.us).reverse c.Hp =
      ∑ p ∈ Finset.range (c.n * c.m),
        (c.ipp.b * ((sVec c.ipp.us).reverse.getD p 0 * (c.y⁻¹) ^ p)) •
          c.bp.H (p / c.n) (p % c.n) := by
    conv_lhs => rw [hsrev, c.Hp_eq]
    rw [dotPS_range, Finset.smul_sum]
    refine Finset.sum_congr rfl fun p _ => ?_
    module
  have h4 : dotPS c.aR c.Hflat = ∑ p ∈ Finset.range (c.n * c.m),
      c.aR.getD p 0 • c.bp.H (p / c.n) (p % c.n) := by
    conv_lhs => rw [list_eq_range_map 0 c.aR _ c.aR_length, c.Hflat_eq]
    rw [dotPS_range]
  have h5 : c.x • dotPS c.rnd.sR c.Hflat = ∑ p ∈ Finset.range (c.n * c.m),
      (c.x * c.rnd.sR.getD p 0) • c.bp.H (p / c.n) (p % c.n) := by
    conv_lhs => rw [list_eq_range_map 0 c.rnd.sR _ hsR, c.Hflat_eq]
    rw [dotPS_range, Finset.smul_sum]
    exact Finset.sum_congr rfl fun p _ => smul_smul _ _ _
  rw [h1, h2, h3, h4, h5, ← Finset.sum_sub_distrib, ← Finset.sum_sub_distrib,
    ← Finset.sum_sub_distrib]
  refine Finset.sum_congr rfl fun p _ => ?_
  rw [← sub_smul, ← sub_smul, ← sub_smul]
  refine congrArg (fun s : Scalar => s • c.bp.H (p / c.n) (p % c.n)) ?_
  have huv : (c.y⁻¹) ^ p * c.y ^ p = 1 := by
    rw [← mul_pow, ZMod.inv_mul_of_unit _ hyu, one_pow]
  linear_combination (-(c.aR.getD p 0 + c.z + c.x * c.rnd.sR.getD p 0)) * huv

lemma noncpart_identity (c : ProveCtx Point T)
    (hu : ∀ label t, IsUnit ((c.ops.challenge_scalar label t).1))
    (hnm : c.n * c.m = 2 ^ Nat.log2 (c.n * c.m))
    (hsL : c.rnd.sL.length = c.n * c.m) (hsR : c.rnd.sR.length = c.n * c.m) :
    (dotPS (c.ipp.us.map fun u => u ^ 2) c.ipp.Ls +
      dotPS (c.ipp.us.map fun u => u⁻¹ ^ 2) c.ipp.Rs) +
    (c.Apt + c.x • c.Spt +
      dotPS ((sVec c.ipp.us).map fun s_i => -c.z - c.ipp.a * s_i) c.Gflat +
      dotPS ((((sVec c.ipp.us).reverse.zip
          ((List.range (c.n * c.m)).map fun i => (c.y⁻¹) ^ i)).zip
          ((List.range c.m).flatMap fun j =>
            ((List.range c.n).map fun i => (2 : Scalar) ^ i).map fun e2 =>
              e2 * c.z ^ j)).map fun p =>
          c.z + p.1.2 * (c.z * c.z * p.2 - c.ipp.b * p.1.1)) c.Hflat +
      (c.w * (c.t_x - c.ipp.a * c.ipp.b)) • c.pc.B) =
    c.e_blinding • c.pc.B_blinding := by
  have hipp := ippCreateT_identity c.ops c.compress c.Qpt hu (Nat.log2 (c.n * c.m))
    c.lx c.rx c.Gflat c.Hp c.tW (by rw [c.lx_length hsL]; exact hnm)
    (by rw [c.rx_length]; exact hnm) (by rw [c.Gflat_length]; exact hnm)
    (by rw [c.Hp_length]; exact hnm)
  have hfold : ippCreateT c.ops c.compress c.Qpt (Nat.log2 (c.n * c.m)) c.lx c.rx
      c.Gflat c.Hp c.tW = c.ipp := rfl
  rw [hfold] at hipp
  have hLR : dotPS (c.ipp.us.map fun u => u ^ 2) c.ipp.Ls +
      dotPS (c.ipp.us.map fun u => u⁻¹ ^ 2) c.ipp.Rs =
      (c.ipp.a • dotPS (sVec c.ipp.us) c.Gflat +
        c.ipp.b • dotPS (sVec c.ipp.us).reverse c.Hp +
        (c.ipp.a * c.ipp.b) • c.Qpt) -
      (dotPS c.lx c.Gflat + dotPS c.rx c.Hp + dotS c.lx c.rx • c.Qpt) := by
    rw [hipp]
    abel
  rw [hLR, gside_identity c hnm hsL, hside_identity c hu hnm hsR,
    ProveCtx.Apt, ProveCtx.Spt, ProveCtx.e_blinding, ProveCtx.Qpt, ProveCtx.t_x]
  module

end ProverMainIdentity

section FinalAssembly

variable {Point T : Type} [AddCommGroup Point] [Module Scalar Point]

lemma ProveCtx.vcBytes_length (c : ProveCtx Point T) : c.vcBytes.length = c.m := by
  rw [ProveCtx.vcBytes, ProveCtx.Vpts]
  simp

lemma ProveCtx.Ls_length (c : ProveCtx Point T) :
    c.ipp.Ls.length = Nat.log2 (c.n * c.m) :=
  (ippCreateT_lengths _ _ _ _ _ _ _ _ _).1

lemma ProveCtx.Rs_length (c : ProveCtx Point T) :
    c.ipp.Rs.length = Nat.log2 (c.n * c.m) :=
  (ippCreateT_lengths _ _ _ _ _ _ _ _ _).2.1

lemma dotPS_four (s1 s2 s3 s4 : Scalar) (P1 P2 P3 P4 : Point) :
    dotPS [s1, s2, s3, s4] [P1, P2, P3, P4] =
      s1 • P1 + s2 • P2 + s3 • P3 + s4 • P4 := by
  simp [dotPS]
  abel

lemma dotPS_two (s1 s2 : Scalar) (P1 P2 : Point) :
    dotPS [s1, s2] [P1, P2] = s1 • P1 + s2 • P2 := by
  simp [dotPS]

lemma range_map_getD_mul (l : List Scalar) (r : Scalar) (k : ℕ) (h : l.length = k) :
    ((List.range k).map fun p => l.getD p 0 * r) = l.map fun x => x * r := by
  refine List.ext_getElem (by simp [h]) fun p h1 h2 => ?_
  rw [List.getElem_map, List.getElem_range, List.getElem_map,
    List.getD_eq_getElem _ _ (by rw [List.length_map] at h2; exact h2)]

lemma pow2_log2 {k : ℕ} (e : ℕ) (h : k = 2 ^ e) : k = 2 ^ Nat.log2 k := by
  subst h
  rw [log2_two_pow]

end FinalAssembly

lemma dotPS_split9 {Point : Type} [AddCommGroup Point] [Module Scalar Point]
    (s1 s2 s3 s4 g h : List Scalar) (b1 b2 : Scalar)
    (p1 p2 p3 p4 G H : List Point) (Q1 Q2 : Point)
    (h1 : s1.length = p1.length) (h2 : s2.length = p2.length)
    (h3 : s3.length = p3.length) (h4 : s4.length = p4.length)
    (h5 : g.length = G.length) (h6 : h.length = H.length) :
    dotPS (s1 ++ s2 ++ s3 ++ s4 ++ g ++ h ++ [b1, b2])
      (p1 ++ p2 ++ p3 ++ p4 ++ G ++ H ++ [Q1, Q2]) =
    dotPS s1 p1 + dotPS s2 p2 + dotPS s3 p3 + dotPS s4 p4 + dotPS g G + dotPS h H +
      (b1 • Q1 + b2 • Q2) := by
  rw [dotPS_append (s1 ++ s2 ++ s3 ++ s4 ++ g ++ h) [b1, b2]
      (p1 ++ p2 ++ p3 ++ p4 ++ G ++ H) [Q1, Q2]
      (by simp [h1, h2, h3, h4, h5, h6]),
    dotPS_append (s1 ++ s2 ++ s3 ++ s4 ++ g) h (p1 ++ p2 ++ p3 ++ p4 ++ G) H
      (by simp [h1, h2, h3, h4, h5]),
    dotPS_append (s1 ++ s2 ++ s3 ++ s4) g (p1 ++ p2 ++ p3 ++ p4) G
      (by simp [h1, h2, h3, h4]),
    dotPS_append (s1 ++ s2 ++ s3) s4 (p1 ++ p2 ++ p3) p4 (by simp [h1, h2, h3]),
    dotPS_append (s1 ++ s2) s3 (p1 ++ p2) p3 (by simp [h1, h2]),
    dotPS_append s1 s2 p1 p2 h1, dotPS_two]


section MsmZero

variable {Point T : Type} [AddCommGroup Point] [Module Scalar Point]

lemma honest_msm_zero (c : ProveCtx Point T) (r : Scalar)
    (hu : ∀ label t, IsUnit ((c.ops.challenge_scalar label t).1))
    (hnm : c.n * c.m = 2 ^ Nat.log2 (c.n * c.m)) (hn0 : 0 < c.n)
    (hv : ∀ v ∈ c.values, v < 2 ^ c.n)
    (hsL : c.rnd.sL.length = c.n * c.m) (hsR : c.rnd.sR.length = c.n * c.m) :
    dotPS
      ((([1, c.x, c.cch * c.x, c.cch * c.x * c.x] ++ (c.ipp.us.map fun u => u ^ 2) ++
          (c.ipp.us.map fun u => (u⁻¹) ^ 2) ++
          ((List.range c.m).map fun j => c.cch * (c.z * c.z) * c.z ^ j)).map fun sc =>
            sc * r) ++
        (accumulateMatrix (resizeMatrix [] c.m c.n)
          ((sVec c.ipp.us).map fun s_i => -c.z - c.ipp.a * s_i) r c.m c.n).flatten ++
        (accumulateMatrix (resizeMatrix [] c.m c.n)
          ((((sVec c.ipp.us).reverse.zip
              ((List.range (c.n * c.m)).map fun i => (c.y⁻¹) ^ i)).zip
              ((List.range c.m).flatMap fun j =>
                ((List.range c.n).map fun i => (2 : Scalar) ^ i).map fun e2 =>
                  e2 * c.z ^ j)).map fun p =>
            c.z + p.1.2 * (c.z * c.z * p.2 - c.ipp.b * p.1.1)) r c.m c.n).flatten ++
        [(-c.e_blinding - c.cch * c.t_x_blinding) * r,
         (c.w * (c.t_x - c.ipp.a * c.ipp.b) +
           c.cch * (delta c.n c.m c.y c.z - c.t_x)) * r])
      (([c.Apt, c.Spt, c.T1pt, c.T2pt] ++ c.ipp.Ls ++ c.ipp.Rs ++ c.Vpts) ++
        c.Gflat ++ c.Hflat ++ [c.pc.B_blinding, c.pc.B]) = 0 := by
  have hVl : c.Vpts.length = c.m := by
    rw [ProveCtx.Vpts]
    simp
  have hgl : ((sVec c.ipp.us).map fun s_i => -c.z - c.ipp.a * s_i).length = c.m * c.n := by
    rw [List.length_map, c.sVec_us_length hnm, Nat.mul_comm]
  have hhl : ((((sVec c.ipp.us).reverse.zip
      ((List.range (c.n * c.m)).map fun i => (c.y⁻¹) ^ i)).zip
      ((List.range c.m).flatMap fun j =>
        ((List.range c.n).map fun i => (2 : Scalar) ^ i).map fun e2 =>
          e2 * c.z ^ j)).map fun p =>
      c.z + p.1.2 * (c.z * c.z * p.2 - c.ipp.b * p.1.1)).length = c.m * c.n := by
    rw [List.length_map, List.length_zip, List.length_zip, List.length_reverse,
      c.sVec_us_length hnm, List.length_map, List.length_range,
      flatMap_range_length _ c.n _ (fun k => by simp), Nat.mul_comm c.m c.n,
      Nat.min_self, Nat.min_self, Nat.mul_comm]
  rw [accum_resize_nil_flatten, accum_resize_nil_flatten,
    range_map_getD_mul _ _ _ hgl, range_map_getD_mul _ _ _ hhl]
  rw [List.map_append, List.map_append, List.map_append]
  rw [dotPS_split9]
  case h1 => rfl
  case h2 => simp [c.us_length, c.Ls_length]
  case h3 => simp [c.us_length, c.Rs_length]
  case h4 => simp [hVl]
  case h5 => simp [c.sVec_us_length hnm, c.Gflat_length]
  case h6 =>
    rw [List.length_map, hhl, c.Hflat_length]
    exact Nat.mul_comm _ _
  rw [dotPS_mul_right, dotPS_mul_right, dotPS_mul_right, dotPS_mul_right,
    dotPS_mul_right, dotPS_mul_right, dotPS_four]
  have hvcs : dotPS ((List.range c.m).map fun j => c.cch * (c.z * c.z) * c.z ^ j)
      c.Vpts = c.cch • dotPS ((List.range c.m).map fun j => c.z * c.z * c.z ^ j)
        c.Vpts := by
    have h1 : ((List.range c.m).map fun j => c.cch * (c.z * c.z) * c.z ^ j) =
        ((List.range c.m).map fun j => c.z * c.z * c.z ^ j).map fun t => c.cch * t := by
      rw [List.map_map]
      refine List.map_congr_left fun j _ => ?_
      show c.cch * (c.z * c.z) * c.z ^ j = c.cch * (c.z * c.z * c.z ^ j)
      ring
    rw [h1, dotPS_smul_left]
  rw [hvcs]
  have hnonc := noncpart_identity c hu hnm hsL hsR
  have hcp := cpart_identity c hn0 hv hsL
  have hmain : r • ((1 : Scalar) • c.Apt + c.x • c.Spt + (c.cch * c.x) • c.T1pt +
        (c.cch * c.x * c.x) • c.T2pt) +
      r • dotPS (c.ipp.us.map fun u => u ^ 2) c.ipp.Ls +
      r • dotPS (c.ipp.us.map fun u => u⁻¹ ^ 2) c.ipp.Rs +
      r • (c.cch • dotPS ((List.range c.m).map fun j => c.z * c.z * c.z ^ j) c.Vpts) +
      r • dotPS ((sVec c.ipp.us).map fun s_i => -c.z - c.ipp.a * s_i) c.Gflat +
      r • dotPS ((((sVec c.ipp.us).reverse.zip
          ((List.range (c.n * c.m)).map fun i => (c.y⁻¹) ^ i)).zip
          ((List.range c.m).flatMap fun j =>
            ((List.range c.n).map fun i => (2 : Scalar) ^ i).map fun e2 =>
              e2 * c.z ^ j)).map fun p =>
        c.z + p.1.2 * (c.z * c.z * p.2 - c.ipp.b * p.1.1)) c.Hflat +
      (((-c.e_blinding - c.cch * c.t_x_blinding) * r) • c.pc.B_blinding +
        ((c.w * (c.t_x - c.ipp.a * c.ipp.b) +
          c.cch * (delta c.n c.m c.y c.z - c.t_x)) * r) • c.pc.B) =
    r • (((dotPS (c.ipp.us.map fun u => u ^ 2) c.ipp.Ls +
        dotPS (c.ipp.us.map fun u => u⁻¹ ^ 2) c.ipp.Rs) +
      (c.Apt + c.x • c.Spt +
        dotPS ((sVec c.ipp.us).map fun s_i => -c.z - c.ipp.a * s_i) c.Gflat +
        dotPS ((((sVec c.ipp.us).reverse.zip
            ((List.range (c.n * c.m)).map fun i => (c.y⁻¹) ^ i)).zip
            ((List.range c.m).flatMap fun j =>
              ((List.range c.n).map fun i => (2 : Scalar) ^ i).map fun e2 =>
                e2 * c.z ^ j)).map fun p =>
            c.z + p.1.2 * (c.z * c.z * p.2 - c.ipp.b * p.1.1)) c.Hflat +
        (c.w * (c.t_x - c.ipp.a * c.ipp.b)) • c.pc.B) -
      c.e_blinding • c.pc.B_blinding) +
    c.cch • ((c.x • c.T1pt + (c.x * c.x) • c.T2pt +
        dotPS ((List.range c.m).map fun j => c.z * c.z * c.z ^ j) c.Vpts) -
      ((c.t_x - delta c.n c.m c.y c.z) • c.pc.B +
        c.t_x_blinding • c.pc.B_blinding))) := by
    module
  rw [hmain, hnonc, hcp]
  simp

end MsmZero

section Completeness

variable {Point T : Type} [AddCommGroup Point] [Module Scalar Point]

lemma proveMultiple_ok (c : ProveCtx Point T)
    (hb : c.values.length = c.blindings.length)
    (hn : c.n = 8 ∨ c.n = 16 ∨ c.n = 32 ∨ c.n = 64)
    (hm : 0 < c.m ∧ c.m = 2 ^ Nat.log2 c.m)
    (hgc : c.n ≤ c.bp.gens_capacity) (hpc : c.m ≤ c.bp.party_capacity)
    (hnid : ∀ P : Point, c.compress P ≠ identityBytes)
    (hx : c.x ≠ 0) :
    proveMultiple c = .ok (c.proof, c.vcBytes, c.ipp.t) := by
  rw [proveMultiple, if_neg (not_not_intro hb), if_neg (not_not_intro hn),
    if_neg (not_not_intro hm), if_neg (by omega), if_neg (by omega), if_neg (hnid _),
    if_neg (hnid _), if_neg (hnid _), if_neg (hnid _), if_neg hx]

/-- **C1**: completeness of the aggregated range proof.  For `n` in
`{8,16,32,64}`, `m = values.len()` in `{1,2,4,8}`, values below `2^n`,
matching blinding counts, generators of sufficient capacity, and an honest
run (randomness vectors of the right length, a point compression that the
curve decompresses back and that never hits the identity encoding, and
challenges drawn as units), `prove_multiple` on a fresh transcript succeeds
with a proof and value commitments that `verify_multiple` — run through
`verify_batch_with_rng` on the single verification view over the same
generators, the returned commitments, the same `n` and a byte-identical
fresh transcript — accepts. -/
theorem prove_multiple_verify_multiple_completeness
    [DecidableEq Point] (c : ProveCtx Point T)
    (decompress : Bytes → Option Point) (r : Scalar)
    (hcodec : ∀ P : Point, decompress (c.compress P) = some P)
    (hnid : ∀ P : Point, c.compress P ≠ identityBytes)
    (hu : ∀ label t, IsUnit ((c.ops.challenge_scalar label t).1))
    (hb : c.values.length = c.blindings.length)
    (hn : c.n = 8 ∨ c.n = 16 ∨ c.n = 32 ∨ c.n = 64)
    (hm : c.m = 1 ∨ c.m = 2 ∨ c.m = 4 ∨ c.m = 8)
    (hv : ∀ v ∈ c.values, v < 2 ^ c.n)
    (hsL : c.rnd.sL.length = c.n * c.m) (hsR : c.rnd.sR.length = c.n * c.m)
    (hgc : c.n ≤ c.bp.gens_capacity) (hpc : c.m ≤ c.bp.party_capacity) :
    proveMultiple c = .ok (c.proof, c.vcBytes, c.ipp.t) ∧
    verifyBatchWithRng c.ops decompress
      [⟨c.proof, c.t0, c.vcBytes.map fun vb => (decompress vb, vb), c.n⟩] [r]
      c.bp c.pc = .ok () := by
  have hnpow : ∃ a, c.n = 2 ^ a := by
    rcases hn with h | h | h | h
    · exact ⟨3, by omega⟩
    · exact ⟨4, by omega⟩
    · exact ⟨5, by omega⟩
    · exact ⟨6, by omega⟩
  have hmpow : ∃ b, c.m = 2 ^ b := by
    rcases hm with h | h | h | h
    · exact ⟨0, by omega⟩
    · exact ⟨1, by omega⟩
    · exact ⟨2, by omega⟩
    · exact ⟨3, by omega⟩
  obtain ⟨a, hna⟩ := hnpow
  obtain ⟨b, hmb⟩ := hmpow
  have hnm : c.n * c.m = 2 ^ Nat.log2 (c.n * c.m) :=
    pow2_log2 (a + b) (by rw [hna, hmb, pow_add])
  have hn0 : 0 < c.n := by omega
  have hmsize : 0 < c.m ∧ c.m = 2 ^ Nat.log2 c.m :=
    ⟨by omega, pow2_log2 b hmb⟩
  haveI : Fact (1 < ristrettoOrder) := ⟨by decide⟩
  have hxu : IsUnit c.x := by
    rw [ProveCtx.x]
    exact hu _ _
  have hx : c.x ≠ 0 := hxu.ne_zero
  refine ⟨proveMultiple_ok c hb hn hmsize hgc hpc hnid hx, ?_⟩
  have hvlen : (c.vcBytes.map fun vb => (decompress vb, vb)).length = c.m := by
    rw [List.length_map, c.vcBytes_length]
  have hsnd0 : ∀ l : List Bytes,
      (l.map fun vb => (decompress vb, vb)).map Prod.snd = l := by
    intro l
    induction l with
    | nil => rfl
    | cons x xs ih => simp [ih]
  have hsnd := hsnd0 c.vcBytes
  have hrep : replayTranscript c.ops c.proof
      ((c.vcBytes.map fun vb => (decompress vb, vb)).map Prod.snd) c.n
      (c.vcBytes.map fun vb => (decompress vb, vb)).length c.t0 =
      .ok (c.out, c.tC) := by
    rw [hsnd, hvlen]
    exact proveMultiple_replay c hnid hnm
  rw [verifyBatchWithRng, addProofs]
  rw [addProof_ok_eq c.ops decompress (BatchCollector.new c.bp c.pc)
    ⟨c.proof, c.t0, c.vcBytes.map fun vb => (decompress vb, vb), c.n⟩ ([r].headD 0)
    c.out c.tC hn hgc (by simpa [BatchCollector.new, c.vcBytes_length] using hpc) hrep]
  dsimp only
  simp only [BatchCollector.new, List.headD_cons, List.length_map, c.vcBytes_length,
    ProveCtx.out, ProveCtx.proof, List.nil_append, zero_add, Nat.zero_max, addProofs]
  simp only [BatchCollector.verify]
  have hpts : ([decompress (c.compress c.Apt), decompress (c.compress c.Spt),
        decompress (c.compress c.T1pt), decompress (c.compress c.T2pt)] ++
        (c.ipp.Ls.map c.compress).map decompress ++
        (c.ipp.Rs.map c.compress).map decompress ++
        (c.vcBytes.map fun vb => (decompress vb, vb)).map Prod.fst ++
        (flattenGens c.bp.G c.n c.m).map (fun p => some p) ++
        (flattenGens c.bp.H c.n c.m).map (fun p => some p) ++
        [some c.pc.B_blinding, some c.pc.B]) =
      (([c.Apt, c.Spt, c.T1pt, c.T2pt] ++ c.ipp.Ls ++ c.ipp.Rs ++ c.Vpts) ++
        c.Gflat ++ c.Hflat ++ [c.pc.B_blinding, c.pc.B]).map some := by
    rw [ProveCtx.vcBytes]
    simp only [List.map_map, List.map_append, List.map_cons, List.map_nil,
      Function.comp_def, ProveCtx.Gflat, ProveCtx.Hflat, hcodec]
  rw [hpts, optionalMSM_map_some, honest_msm_zero c r hu hnm hn0 hv hsL hsR]
  simp

end Completeness

/-- Witness compression over `Point := Scalar`: a leading `1` byte (so the
encoding is never the 32-zero-byte identity encoding) followed by the
canonical scalar bytes. -/
def exampleCompressC1 : Scalar → Bytes := fun p => 1 :: scalarToBytes p

/-- Witness decompression: drop the leading byte and parse canonically. -/
def exampleDecompressC1 : Bytes → Option Scalar := fun b => scalarFromCanonicalBytes b.tail

/-- A concrete honest proving run: `n = 8`, one value `0` with blinding `0`,
trivial generators over `Point := Scalar`, all challenges `1`. -/
def exampleCtxC1 : ProveCtx Scalar Unit :=
  ⟨constOps, exampleCompressC1, ⟨8, 1, fun _ _ => 0, fun _ _ => 0⟩, ⟨0, 0⟩, (),
    [0], [0], 8, ⟨[0], [0], List.replicate 8 0, List.replicate 8 0, [0], [0]⟩⟩

theorem prove_multiple_verify_multiple_completeness_witness :
    proveMultiple exampleCtxC1 =
      .ok (exampleCtxC1.proof, exampleCtxC1.vcBytes, exampleCtxC1.ipp.t) ∧
    verifyBatchWithRng exampleCtxC1.ops exampleDecompressC1
      [⟨exampleCtxC1.proof, exampleCtxC1.t0,
        exampleCtxC1.vcBytes.map fun vb => (exampleDecompressC1 vb, vb),
        exampleCtxC1.n⟩] [0] exampleCtxC1.bp exampleCtxC1.pc = .ok () :=
  prove_multiple_verify_multiple_completeness exampleCtxC1 exampleDecompressC1 0
    (fun P => scalarFromCanonicalBytes_scalarToBytes P)
    (fun P h => by
      have h1 : (1 : ℕ) = 0 := congrArg (fun l => l.headD 0) h
      exact absurd h1 (by decide))
    (fun label t => isUnit_one)
    rfl (Or.inl rfl) (Or.inl rfl)
    (by decide) rfl rfl (by decide) (by decide)
